import Mathlib

/-!
Verification of the Atlas-Wizard101 deimoslang core (compiler `ir.py`,
virtual machine `vm.py`) and the background task supervisor
(`task_watcher.py`), as a shallow embedding in Lean 4.

Conventions of the embedding:
* Python's dynamically typed instruction payloads (`Instruction.data : Any | None`)
  are modelled by the inductive `PyVal`, parameterised over the (externally
  produced) AST expression type `ε` and carrying ints, bools, strings, lists,
  expression objects, `PlayerSelector` objects, tokenizer tokens, `LogKind`
  enum members and opaque objects.
* Machine integers are `Int`/`Nat`; the instruction pointer and jump offsets
  are `Int`, and list indexing follows Python semantics (negative indices wrap
  once from the end, everything else is an `IndexError`), see `pyGet`.
* Fallible code returns `Except`.  Exceptions raised by the VM (`VMError`),
  by Python itself (`IndexError` from out-of-range indexing or `list.pop` on
  an empty list, `AssertionError` from `assert`) are distinguished by
  constructor.  Malformed-payload failures that the source surfaces as
  `AssertionError`/`TypeError` are collapsed into `.assertionError`; no claim
  depends on distinguishing them.
* External effects (expression evaluation against clients, sleeping, the
  per-client action dispatch of `exec_deimos_call`, window queries) are
  abstracted into an oracle record `Env`; the `waitfor` polling logic of
  `exec_deimos_call` (lines 184-192 of vm.py) is modelled separately and
  directly by `waitfor_coro` / `waitfor_impl` with an explicit poll stream
  and fuel.
-/

/-- Tokenizer tokens as consumed by `log_literal` in `VM.step`
(`x.kind`: string tokens contribute `x.value`, identifier tokens contribute
`x.literal`, anything else raises `VMError("Unable to log: ...")`). -/
inductive LogTok where
  | string (value : String)
  | identifier (lit : String)
  | other
deriving DecidableEq, Repr

/-- `LogKind` enum from the external parser (`log` commands carry one at
`com.data[0]`). -/
inductive LogKind where
  | window
  | literal
deriving DecidableEq, Repr

/-- `PlayerSelector` from the external parser: `{mass, inverted, player_nums}`.
`player_nums` is a Python set of ints, modelled as a `List Nat` (only
membership is ever used). -/
structure PlayerSelector where
  mass : Bool
  inverted : Bool
  player_nums : List Nat
deriving DecidableEq, Repr

/-- `CommandKind` enum members that `Compiler.compile_command` dispatches on. -/
inductive CommandKind where
  | kill | sleep | log
  | sendkey | click | teleport | goto | usepotion | buypotions | relog | tozone
  | waitfor
  | load_playstyle
  | expr
deriving DecidableEq, Repr

/-- `CommandKind.name` in Python (`Enum.name`). -/
def commandKindName : CommandKind → String
  | .kill => "kill"
  | .sleep => "sleep"
  | .log => "log"
  | .sendkey => "sendkey"
  | .click => "click"
  | .teleport => "teleport"
  | .goto => "goto"
  | .usepotion => "usepotion"
  | .buypotions => "buypotions"
  | .relog => "relog"
  | .tozone => "tozone"
  | .waitfor => "waitfor"
  | .load_playstyle => "load_playstyle"
  | .expr => "expr"

/-- Dynamically typed Python values appearing as instruction/command payloads.
`ε` is the external AST expression type (expression objects are opaque to the
VM except through the evaluation oracle).  `obj` stands for other opaque
Python objects (e.g. `WaitforKind`/`TeleportKind` enum members), identified by
a tag. -/
inductive PyVal (ε : Type) where
  | int (n : Int)
  | bool (b : Bool)
  | str (s : String)
  | list (xs : List (PyVal ε))
  | expr (e : ε)
  | selector (sel : PlayerSelector)
  | logKind (k : LogKind)
  | tok (t : LogTok)
  | obj (tag : String)

/-- The closed `InstructionKind` enumeration of ir.py. -/
inductive InstructionKind where
  | kill | sleep | log_literal | log_window
  | jump | jump_if | jump_ifn
  | enter_until
  | label | ret | call | deimos_call
  | load_playstyle
  | set_var | dec_var
  | nop
deriving DecidableEq, Repr

/-- `InstructionKind.name` in Python (`Enum.name`). -/
def instructionKindName : InstructionKind → String
  | .kill => "kill"
  | .sleep => "sleep"
  | .log_literal => "log_literal"
  | .log_window => "log_window"
  | .jump => "jump"
  | .jump_if => "jump_if"
  | .jump_ifn => "jump_ifn"
  | .enter_until => "enter_until"
  | .label => "label"
  | .ret => "ret"
  | .call => "call"
  | .deimos_call => "deimos_call"
  | .load_playstyle => "load_playstyle"
  | .set_var => "set_var"
  | .dec_var => "dec_var"
  | .nop => "nop"

/-- ir.py's `Instruction`: a kind together with an optional, dynamically
typed payload (`data: Any | None = None`). -/
structure Instruction (ε : Type) where
  kind : InstructionKind
  data : Option (PyVal ε) := none

/-- Python truthiness of a payload value (`if self.data:`).  Numbers are
truthy iff nonzero, strings iff nonempty, lists iff nonempty, `False` is
falsy; all other objects (AST nodes, selectors, enum members, tokens) are
truthy by default. -/
def pyTruthy {ε : Type} : PyVal ε → Bool
  | .int n => n != 0
  | .bool b => b
  | .str s => s != ""
  | .list xs => !xs.isEmpty
  | .expr _ => true
  | .selector _ => true
  | .logKind _ => true
  | .tok _ => true
  | .obj _ => true

mutual
/-- `repr(x)` for payload values (used for elements inside a list).  Only the
cases a claim depends on are pinned down exactly; opaque objects render as a
tagged placeholder. -/
def pyReprOf {ε : Type} : PyVal ε → String
  | .int n => toString n
  | .bool b => if b then "True" else "False"
  | .str s => "'" ++ s ++ "'"
  | .list xs => "[" ++ pyReprList xs ++ "]"
  | .expr _ => "<expr>"
  | .selector _ => "<PlayerSelector>"
  | .logKind .window => "LogKind.window"
  | .logKind .literal => "LogKind.literal"
  | .tok _ => "<token>"
  | .obj tag => tag

/-- Comma-separated reprs of the elements of a list. -/
def pyReprList {ε : Type} : List (PyVal ε) → String
  | [] => ""
  | [x] => pyReprOf x
  | x :: y :: rest => pyReprOf x ++ ", " ++ pyReprList (y :: rest)
end

/-- `str(x)` for payload values (as used by the f-string in
`Instruction.__repr__`): like `repr` except that a top-level string prints
without quotes. -/
def pyStrOf {ε : Type} : PyVal ε → String
  | .str s => s
  | v => pyReprOf v

/-- `Instruction.__repr__`: the kind name, followed by the payload whenever
the payload is *truthy* (the source tests `if self.data:`, not
`if self.data is not None:`). -/
def instructionRepr {ε : Type} (i : Instruction ε) : String :=
  match i.data with
  | some d => if pyTruthy d then instructionKindName i.kind ++ " " ++ pyStrOf d
              else instructionKindName i.kind
  | none => instructionKindName i.kind

mutual
/-- Structural (value) equality of payloads, used for the `x.data != label`
comparison in `VM.step`'s backward label scan.  Compiled label identifiers are
strings, where structural equality agrees with Python `==`; for opaque object
pairs (where Python falls back to identity) the model compares tags. -/
def pyValBeq {ε : Type} [BEq ε] : PyVal ε → PyVal ε → Bool
  | .int a, .int b => a == b
  | .bool a, .bool b => a == b
  | .str a, .str b => a == b
  | .list as, .list bs => pyValListBeq as bs
  | .expr a, .expr b => a == b
  | .selector a, .selector b => a == b
  | .logKind a, .logKind b => a == b
  | .tok a, .tok b => a == b
  | .obj a, .obj b => a == b
  | _, _ => false

/-- Elementwise structural equality of payload lists. -/
def pyValListBeq {ε : Type} [BEq ε] : List (PyVal ε) → List (PyVal ε) → Bool
  | [], [] => true
  | a :: as, b :: bs => pyValBeq a b && pyValListBeq as bs
  | _, _ => false
end

/-- Equality of optional payloads (`None == None` holds in Python). -/
def pyOptBeq {ε : Type} [BEq ε] : Option (PyVal ε) → Option (PyVal ε) → Bool
  | none, none => true
  | some a, some b => pyValBeq a b
  | _, _ => false

/-- Python list indexing `xs[i]`: nonnegative indices index from the front,
indices in `[-len, -1]` wrap once from the end, everything else is an
`IndexError` (`none`). -/
def pyGet {α : Type} (xs : List α) (i : Int) : Option α :=
  if 0 ≤ i then xs.get? i.toNat
  else if 0 ≤ (xs.length : Int) + i then xs.get? ((xs.length : Int) + i).toNat
  else none

/-- Errors raised during compilation (`CompilerError`) together with Python
`IndexError`s from out-of-range `com.data[...]` accesses. -/
inductive CompileErr where
  | compilerError
  | indexError
deriving DecidableEq, Repr

/-- `Command` objects from the external parser as consumed by
`Compiler.compile_command`: a player selector, a command kind, and a
dynamically typed data list. -/
structure Command (ε : Type) where
  player_selector : PlayerSelector
  kind : CommandKind
  data : List (PyVal ε)

/-- Python `x == True` (used for the `com.data[1] == True` check): `True`
itself and the number `1` compare equal to `True`; everything else does not. -/
def pyEqTrue {ε : Type} : PyVal ε → Bool
  | .bool b => b
  | .int n => n == 1
  | _ => false

/-- `Compiler.emit_deimos_call`: emits one `deimos_call` instruction with
payload `[com.player_selector, com.kind.name, com.data]`. -/
def emit_deimos_call {ε : Type} (com : Command ε) : Instruction ε :=
  ⟨.deimos_call, some (.list [.selector com.player_selector,
                              .str (commandKindName com.kind),
                              .list com.data])⟩

/-- `Compiler.compile_command`, as the pure list of instructions it appends
to the program.  Raising inside the Python method aborts the whole
compilation, so partially appended instructions are never observable and an
`Except` result is faithful. -/
def compile_command {ε : Type} (com : Command ε) : Except CompileErr (List (Instruction ε)) :=
  match com.kind with
  | .kill => .ok [⟨.kill, none⟩]
  | .sleep =>
      match com.data.get? 0 with
      | some d => .ok [⟨.sleep, some d⟩]
      | none => .error .indexError
  | .log =>
      match com.data.get? 0 with
      | none => .error .indexError
      | some (.logKind .window) =>
          match com.data.get? 1 with
          | some path => .ok [⟨.log_window, some (.list [.selector com.player_selector, path])⟩]
          | none => .error .indexError
      | some (.logKind .literal) =>
          -- `com.data[1:len(com.data)]`
          .ok [⟨.log_literal, some (.list (com.data.drop 1))⟩]
      | some _ => .error .compilerError
  | .sendkey | .click | .teleport | .goto | .usepotion | .buypotions
  | .relog | .tozone =>
      .ok [emit_deimos_call com]
  | .waitfor =>
      -- data1 = com.data[:]; data1[1] = False  (IndexError when len < 2)
      match com.data.get? 1 with
      | none => .error .indexError
      | some flag =>
          let non_inverted_com : Command ε :=
            { com with data := com.data.set 1 (.bool false) }
          if pyEqTrue flag then
            .ok [emit_deimos_call non_inverted_com, emit_deimos_call com]
          else
            .ok [emit_deimos_call non_inverted_com]
  | .load_playstyle =>
      match com.data.get? 0 with
      | some d => .ok [⟨.load_playstyle, some d⟩]
      | none => .error .indexError
  | .expr => .error .compilerError

/-- Statement tree from the external parser, shaped as
`Compiler.compile_stmt` consumes it (`stmt.body.stmts` etc. are inlined as
statement lists). -/
inductive Stmt (ε : Type) where
  | stmtList (stmts : List (Stmt ε))
  | commandStmt (command : Command ε)
  | blockDefStmt (ident : String) (body : List (Stmt ε))
  | ifStmt (expr : ε) (branch_true : List (Stmt ε)) (branch_false : List (Stmt ε))
  | whileStmt (expr : ε) (body : List (Stmt ε))
  | untilStmt (expr : ε) (body : List (Stmt ε))
  | loopStmt (body : List (Stmt ε))
  | callStmt (ident : String)
  | setVarStmt (id : String) (expr : ε)
  | decVarStmt (id : String)

mutual
/-- `Compiler.compile_stmt`, as the pure instruction list appended for one
statement. -/
def compile_stmt {ε : Type} : Stmt ε → Except CompileErr (List (Instruction ε))
  | .stmtList ss => compile_stmts ss
  | .commandStmt c => compile_command c
  | .blockDefStmt ident body => do
      let instrs_body ← compile_stmts body
      pure ([⟨.jump, some (.int ((instrs_body.length : Int) + 3))⟩,
             ⟨.label, some (.str ident)⟩]
            ++ instrs_body
            ++ [⟨.ret, none⟩, ⟨.nop, none⟩])
  | .ifStmt e branch_true branch_false => do
      let instrs_false ← compile_stmts branch_false
      let instrs_true ← compile_stmts branch_true
      pure ([⟨.jump_if, some (.list [.expr e, .int ((instrs_false.length : Int) + 2)])⟩]
            ++ instrs_false
            ++ [⟨.jump, some (.int ((instrs_true.length : Int) + 1))⟩]
            ++ instrs_true
            ++ [⟨.nop, none⟩])
  | .whileStmt e body => do
      let b ← compile_stmts body
      let instrs_body := b ++ [⟨.jump_if, some (.list [.expr e, .int (-(b.length : Int))])⟩]
      pure ([⟨.jump_ifn, some (.list [.expr e, .int ((instrs_body.length : Int) + 1)])⟩]
            ++ instrs_body
            ++ [⟨.nop, none⟩])
  | .untilStmt e body => do
      let b ← compile_stmts body
      let instrs_body := b ++ [⟨.jump, some (.int (-(b.length : Int)))⟩]
      pure ([⟨.enter_until, some (.list [.expr e, .int ((instrs_body.length : Int) + 1)])⟩]
            ++ instrs_body
            ++ [⟨.nop, none⟩])
  | .loopStmt body => do
      let b ← compile_stmts body
      pure (b ++ [⟨.jump, some (.int (-(b.length : Int)))⟩])
  | .callStmt ident =>
      pure [⟨.call, some (.str ident)⟩, ⟨.nop, none⟩]
  | .setVarStmt id e =>
      pure [⟨.set_var, some (.list [.str id, .expr e])⟩]
  | .decVarStmt id =>
      pure [⟨.dec_var, some (.str id)⟩]

/-- `Compiler.compile`: compile a statement list in order, concatenating. -/
def compile_stmts {ε : Type} : List (Stmt ε) → Except CompileErr (List (Instruction ε))
  | [] => pure []
  | s :: ss => do
      let a ← compile_stmt s
      let b ← compile_stmts ss
      pure (a ++ b)
end

/-- Runtime errors escaping `VM.step`, by kind.  `VMError` exceptions from
vm.py are the first group (messages elided, one constructor per raise site);
`popFromEmptyList` and `indexError` are the Python `IndexError`s raised by
`self._callstack.pop()` on an empty stack and by out-of-range list indexing
respectively; `assertionError` stands for failed `assert`s (and other
malformed-payload failures). -/
inductive VMErr where
  | unimplementedInstruction
  | unableToFindLabel
  | unimplementedExpression
  | unableToLog
  | windowNotFound
  | clientRangeError
  | effectError
  | popFromEmptyList
  | indexError
  | assertionError
deriving DecidableEq, Repr

/-- Oracle for the VM's external effects, over expression type `ε` and client
handle type `κ`:
* `evalTruthy e` — the truthiness of `await self.eval(e)` for a condition
  expression (`jump_if`/`jump_ifn`), or an error raised by evaluation;
* `sleepEval e` — evaluation of a sleep duration, the `float` assert and the
  suspension, collapsed to success or error;
* `deimosEffect cs name args` — the whole fan-out of `exec_deimos_call` on
  the already-selected clients `cs` (its `waitfor` polling core is modelled
  separately by `waitfor_coro`/`waitfor_impl`);
* `windowLog c path` — one client's window fetch+log in `log_window`
  (`VMError` when the window path does not resolve). -/
structure Env (ε κ : Type) where
  evalTruthy : ε → Except VMErr Bool
  sleepEval : ε → Except VMErr Unit
  deimosEffect : List κ → String → List (PyVal ε) → Except VMErr Unit
  windowLog : κ → PyVal ε → Except VMErr Unit

/-- VM state: the fixed ordered client list, the loaded program, the
`running`/`killed` flags, the instruction pointer and the call stack.  The
call stack is a Python list used with `append`/`pop` (top at the end); it is
modelled head-as-top, which realises the same LIFO discipline. -/
structure VMState (ε κ : Type) where
  clients : List κ
  program : List (Instruction ε)
  running : Bool
  killed : Bool
  ip : Int
  callstack : List Int

/-- A freshly loaded VM about to `run`: pointer 0, empty call stack,
`running` set by `run`, not killed. -/
def initVM {ε κ : Type} (clients : List κ) (program : List (Instruction ε)) : VMState ε κ :=
  ⟨clients, program, true, false, 0, []⟩

/-- `VM.player_by_num`: `i = num - 1`; only `i >= len` raises a `VMError` —
for negative `i` Python list indexing silently wraps from the end
(`-len ≤ i ≤ -1`) and raises a plain `IndexError` below that. -/
def player_by_num {κ : Type} (clients : List κ) (num : Int) : Except VMErr κ :=
  let i := num - 1
  if (clients.length : Int) ≤ i then .error .clientRangeError
  else
    match pyGet clients i with
    | some c => .ok c
    | none => .error .indexError

/-- `VM._select_players`: `mass` yields the whole client list; otherwise the
clients are filtered by 0-based index membership in `player_nums`, excluding
on `inverted`, preserving list order. -/
def select_players {κ : Type} (clients : List κ) (selector : PlayerSelector) : List κ :=
  if selector.mass then clients
  else if selector.inverted then
    ((clients.enum.filter (fun p => decide (p.1 ∉ selector.player_nums))).map Prod.snd)
  else
    ((clients.enum.filter (fun p => decide (p.1 ∈ selector.player_nums))).map Prod.snd)

/-- Whether `program[j]` is a `label` instruction whose payload equals `lbl`
(the loop body of `VM.step`'s backward scan, for one index). -/
def isLabelMatch {ε : Type} [BEq ε] (program : List (Instruction ε))
    (lbl : Option (PyVal ε)) (j : Nat) : Bool :=
  match program.get? j with
  | some x => x.kind == .label && pyOptBeq x.data lbl
  | none => false

/-- The backward label scan of `VM.step`'s `call` case: starting at index `j`
and scanning down to 0, the first (i.e. nearest) index holding a matching
`label` instruction. -/
def find_label {ε : Type} [BEq ε] (program : List (Instruction ε))
    (lbl : Option (PyVal ε)) : Nat → Option Nat
  | 0 => if isLabelMatch program lbl 0 then some 0 else none
  | j + 1 => if isLabelMatch program lbl (j + 1) then some (j + 1)
             else find_label program lbl j

/-- The `log_literal` body: string tokens contribute their value, identifier
tokens their literal, anything else raises `VMError("Unable to log: ...")`;
non-token payload entries have no `.kind` attribute (collapsed to
`.assertionError`). -/
def logLiteralStrs {ε : Type} : List (PyVal ε) → Except VMErr (List String)
  | [] => .ok []
  | .tok (.string v) :: rest => do pure (v :: (← logLiteralStrs rest))
  | .tok (.identifier l) :: rest => do pure (l :: (← logLiteralStrs rest))
  | .tok .other :: _ => .error .unableToLog
  | _ :: _ => .error .assertionError

/-- The `log_window` fan-out: fetch (and log) the window text for every
selected client; all fetches must succeed. -/
def logWindowAll {ε κ : Type} (env : Env ε κ) (path : PyVal ε) :
    List κ → Except VMErr Unit
  | [] => .ok ()
  | c :: cs => do
      env.windowLog c path
      logWindowAll env path cs

/-- One `VM.step`: a no-op when not running; otherwise fetch
`program[ip]` (Python indexing), dispatch on the instruction kind exactly as
the source `match` does — in particular `enter_until`, `nop`, `set_var`,
`dec_var` and `load_playstyle` have no case and fall into the
`Unimplemented instruction` `VMError` — and finally stop the VM when the new
pointer reaches or passes the end of the program. -/
def step {ε κ : Type} [BEq ε] (env : Env ε κ) (s : VMState ε κ) :
    Except VMErr (VMState ε κ) :=
  if s.running = false then .ok s
  else
    match pyGet s.program s.ip with
    | none => .error .indexError
    | some instruction => do
      let s' ← match instruction.kind, instruction.data with
        | .kill, _ =>
            -- self.kill(): stop + killed; pointer unchanged
            pure { s with running := false, killed := true }
        | .sleep, some (.expr e) => do
            env.sleepEval e
            pure { s with ip := s.ip + 1 }
        | .sleep, some _ => .error .unimplementedExpression
        | .sleep, none => .error .assertionError
        | .jump, some (.int off) => pure { s with ip := s.ip + off }
        | .jump, _ => .error .assertionError
        | .jump_if, some (.list (.expr e :: .int off :: _)) => do
            let b ← env.evalTruthy e
            if b then pure { s with ip := s.ip + off }
            else pure { s with ip := s.ip + 1 }
        | .jump_if, _ => .error .assertionError
        | .jump_ifn, some (.list (.expr e :: .int off :: _)) => do
            let b ← env.evalTruthy e
            if b then pure { s with ip := s.ip + 1 }
            else pure { s with ip := s.ip + off }
        | .jump_ifn, _ => .error .assertionError
        | .call, lbl =>
            -- push self._ip + 1, then scan backward from self._ip for the label;
            -- the scan failing raises, which discards the push
            if s.ip ≤ 0 then .error .unableToFindLabel
            else
              match find_label s.program lbl (s.ip - 1).toNat with
              | some j => pure { s with callstack := (s.ip + 1) :: s.callstack,
                                        ip := (j : Int) }
              | none => .error .unableToFindLabel
        | .ret, _ =>
            match s.callstack with
            | r :: rest => pure { s with ip := r, callstack := rest }
            | [] => .error .popFromEmptyList
        | .log_literal, some (.list xs) => do
            let _ ← logLiteralStrs xs
            pure { s with ip := s.ip + 1 }
        | .log_literal, _ => .error .assertionError
        | .log_window, some (.list (.selector sel :: path :: _)) => do
            logWindowAll env path (select_players s.clients sel)
            pure { s with ip := s.ip + 1 }
        | .log_window, _ => .error .assertionError
        | .label, _ => pure { s with ip := s.ip + 1 }
        | .deimos_call, some (.list (.selector sel :: .str name :: args)) => do
            env.deimosEffect (select_players s.clients sel) name args
            pure { s with ip := s.ip + 1 }
        | .deimos_call, _ => .error .assertionError
        | .enter_until, _ | .nop, _ | .set_var, _ | .dec_var, _
        | .load_playstyle, _ =>
            .error .unimplementedInstruction
      if (s'.program.length : Int) ≤ s'.ip then
        pure { s' with running := false }
      else
        pure s'

/-- Iterated `step`, recording the instruction pointer before each step
(the list of executed positions) together with the final state. -/
def stepsTrace {ε κ : Type} [BEq ε] (env : Env ε κ) :
    Nat → VMState ε κ → Except VMErr (List Int × VMState ε κ)
  | 0, s => .ok ([], s)
  | n + 1, s => do
      let s' ← step env s
      let (tr, v) ← stepsTrace env n s'
      pure (s.ip :: tr, v)

/-- `waitfor_coro` from `exec_deimos_call` (vm.py): repeatedly poll the
per-client predicate at a fixed interval while `not (invert ^ poll)` holds.
The predicate is modelled as the stream `s` of its successive poll results
(`s k` is the `k`-th poll overall); `fuel` bounds the number of loop
iterations so the model is total — the source loop is unbounded, and `none`
means the loop was still running when the fuel ran out.  The result counts
the polls performed, including the final one that exits the loop. -/
def waitfor_coro (invert : Bool) (s : Nat → Bool) : Nat → Nat → Option Nat
  | _, 0 => none
  | k, fuel + 1 =>
      if xor invert (s k) then some 1
      else (waitfor_coro invert s (k + 1) fuel).map (· + 1)

/-- `waitfor_impl` from `exec_deimos_call` (vm.py): a first
`waitfor_coro(coro, False)` phase (poll until the predicate is true), then —
only if the completion flag is set — a second `waitfor_coro(coro, True)`
phase (poll until it is false), continuing on the same poll stream where
phase one left off.  The result is the phase-one poll count paired with the
phase-two poll count when that phase ran. -/
def waitfor_impl (completion : Bool) (s : Nat → Bool) (k fuel : Nat) :
    Option (Nat × Option Nat) :=
  match waitfor_coro false s k fuel with
  | none => none
  | some n1 =>
      if completion then
        (waitfor_coro true s (k + n1) fuel).map (fun n2 => (n1, some n2))
      else
        some (n1, none)

/-- Status of one watched asyncio task, as observable through
`task.done()`/`task.exception()`: still running, finished normally, finished
with an exception (identified by a tag), or cancelled (for which
`task.exception()` itself raises `CancelledError`). -/
inductive TaskStatus where
  | running
  | succeeded
  | failed (e : Nat)
  | cancelledTask
deriving DecidableEq, Repr

/-- One registered task (identity plus observable status). -/
structure WTask where
  taskId : Nat
  status : TaskStatus
deriving DecidableEq, Repr

/-- What a `TaskWatcher._tick` raises: the first finished task's exception,
or the `CancelledError` that `task.exception()` itself raises on a cancelled
task. -/
inductive TickErr where
  | exc (e : Nat)
  | cancelledError
deriving DecidableEq, Repr

/-- `ValueError`/`AssertionError` escaping the other TaskWatcher methods. -/
inductive WatchErr where
  | valueError
  | assertionError
deriving DecidableEq, Repr

/-- `TaskWatcher` state: the watch list, the `_running` flag and the
supervising loop task `_selftask` (task identity). -/
structure TaskWatcher where
  tasks : List WTask
  running : Bool
  selftask : Option Nat
deriving DecidableEq, Repr

/-- `TaskWatcher.__init__`: empty watch list, not running, no self task. -/
def newTaskWatcher : TaskWatcher := ⟨[], false, none⟩

/-- The loop body of `TaskWatcher._tick`, threading the watcher state
through the iteration over the (remaining) watch list: skip unfinished
tasks, query `task.exception()` on finished ones — which raises
`CancelledError` for a cancelled task — and raise the first exception found.
The returned watcher is the state at exit (normal or raising). -/
def tickAux (w : TaskWatcher) : List WTask → Option TickErr × TaskWatcher
  | [] => (none, w)
  | t :: rest =>
      match t.status with
      | .running => tickAux w rest
      | .succeeded => tickAux w rest
      | .failed e => (some (.exc e), w)
      | .cancelledTask => (some .cancelledError, w)

/-- `TaskWatcher._tick`: scan the watch list in order; the result is the
exception that propagates (if any) together with the watcher state
afterwards. -/
def tick (w : TaskWatcher) : Option TickErr × TaskWatcher :=
  tickAux w w.tasks

/-- `TaskWatcher.register`: append to the watch list. -/
def register (w : TaskWatcher) (t : WTask) : TaskWatcher :=
  { w with tasks := w.tasks ++ [t] }

/-- `TaskWatcher.unregister`: cancel the task when not yet finished (an
effect on the task object itself, outside the watcher state), then
`list.remove` it — removing the first occurrence, `ValueError` when absent. -/
def unregister (w : TaskWatcher) (t : WTask) : Except WatchErr TaskWatcher :=
  if t ∈ w.tasks then .ok { w with tasks := w.tasks.erase t }
  else .error .valueError

/-- The world state for `asyncio.create_task`: a supply of fresh task
identities (each call returns a task distinct from every earlier one). -/
structure TaskWorld where
  nextId : Nat
deriving DecidableEq, Repr

/-- `asyncio.create_task`: allocate a fresh task. -/
def create_task (wd : TaskWorld) : Nat × TaskWorld :=
  (wd.nextId, ⟨wd.nextId + 1⟩)

/-- `TaskWatcher.start_loop`: when `_running` is set, assert `_selftask`
exists and return it; otherwise create the supervising loop task, store and
return it.  Mirrors the source exactly — in particular `_running` is *not*
set to `True` on this path (and is never set anywhere in the repository). -/
def start_loop (w : TaskWatcher) (wd : TaskWorld) :
    Except WatchErr (Nat × TaskWatcher × TaskWorld) :=
  if w.running then
    match w.selftask with
    | some t => .ok (t, w, wd)
    | none => .error .assertionError
  else
    let p := create_task wd
    .ok (p.1, { w with selftask := some p.1 }, p.2)

/-- An instruction is *straight-line* for an oracle when executing it from
any mid-program position simply advances the instruction pointer by one
(leaving every other component of the state unchanged).  `label`,
well-formed `log_literal` and effect-successful `sleep`/`deimos_call`
instructions are straight-line. -/
def AdvOne {ε κ : Type} [BEq ε] (env : Env ε κ) (i : Instruction ε) : Prop :=
  ∀ s : VMState ε κ, s.running = true → pyGet s.program s.ip = some i →
    s.ip + 1 < (s.program.length : Int) →
    step env s = .ok { s with ip := s.ip + 1 }

/-- A single VM step that preserves the call stack and leaves the machine
running (e.g. jumps, labels, straight-line instructions). -/
def NeutralStep {ε κ : Type} [BEq ε] (env : Env ε κ) (s t : VMState ε κ) : Prop :=
  step env s = .ok t ∧ t.callstack = s.callstack ∧ t.running = true

/-- Finitely many call-stack-preserving steps. -/
inductive Neutral {ε κ : Type} [BEq ε] (env : Env ε κ) :
    VMState ε κ → VMState ε κ → Prop where
  | refl (s : VMState ε κ) : Neutral env s s
  | head {s t u : VMState ε κ} :
      NeutralStep env s t → Neutral env t u → Neutral env s u

/-- `CallSeq env s sites v`: from `s`, the VM performs some call-stack-
preserving steps and then executes a `call` instruction, repeatedly; `sites`
records the instruction-pointer positions of the executed `call`s in order,
ending in state `v`. -/
inductive CallSeq {ε κ : Type} [BEq ε] (env : Env ε κ) :
    VMState ε κ → List Int → VMState ε κ → Prop where
  | nil (s : VMState ε κ) : CallSeq env s [] s
  | call {s t u v : VMState ε κ} {lbl : Option (PyVal ε)} {sites : List Int} :
      Neutral env s t →
      t.running = true →
      pyGet t.program t.ip = some ⟨.call, lbl⟩ →
      step env t = .ok u →
      CallSeq env u sites v →
      CallSeq env s (t.ip :: sites) v

/-- `RetSeq env s resumes v`: from `s`, the VM performs some call-stack-
preserving steps and then executes a `ret` instruction, repeatedly;
`resumes` records the instruction-pointer value immediately after each
executed `ret` (the address execution resumes at), ending in state `v`. -/
inductive RetSeq {ε κ : Type} [BEq ε] (env : Env ε κ) :
    VMState ε κ → List Int → VMState ε κ → Prop where
  | nil (s : VMState ε κ) : RetSeq env s [] s
  | ret {s t u v : VMState ε κ} {d : Option (PyVal ε)} {resumes : List Int} :
      Neutral env s t →
      t.running = true →
      pyGet t.program t.ip = some ⟨.ret, d⟩ →
      step env t = .ok u →
      RetSeq env u resumes v →
      RetSeq env s (u.ip :: resumes) v

/-- A concrete, always-succeeding oracle over `ε := Bool` (an expression is
its own truth value) and `κ := Unit`, used to instantiate theorems with
hypotheses at concrete inputs. -/
def oracleEnv : Env Bool Unit :=
  ⟨fun b => .ok b, fun _ => .ok (), fun _ _ _ => .ok (), fun _ _ => .ok ()⟩

/-- A hand-written program exercising nested `call`/`ret`: block `b` is
`label b; ret`, block `a` is `label a; call b; ret`, and the main code
(reached by the initial jump) is `call a; label end`. -/
def callRetDemoProgram : List (Instruction Bool) :=
  [⟨.jump, some (.int 6)⟩,
   ⟨.label, some (.str "b")⟩,
   ⟨.ret, none⟩,
   ⟨.label, some (.str "a")⟩,
   ⟨.call, some (.str "b")⟩,
   ⟨.ret, none⟩,
   ⟨.call, some (.str "a")⟩,
   ⟨.label, some (.str "end")⟩]

/-! ## Basic lemmas about Python indexing -/

theorem pyGet_nonneg {α : Type} (xs : List α) (i : Int) (h : 0 ≤ i) :
    pyGet xs i = xs.get? i.toNat := by
  simp [pyGet, h]

/-! ## C4 — `TaskWatcher.start_loop` -/

/-- C4: the claim states `start_loop` is idempotent (a second call returns
the task created by the first call and starts no second loop).  On the code
this fails: `_running` is never set to `True`, so a second call allocates and
returns a *new* loop task.  This theorem evaluates the code at the failing
input: two consecutive `start_loop` calls on a fresh watcher create two
distinct tasks. -/
theorem c4_start_loop_not_idempotent :
    start_loop newTaskWatcher ⟨0⟩ = .ok (0, ⟨[], false, some 0⟩, ⟨1⟩) ∧
    start_loop ⟨[], false, some 0⟩ ⟨1⟩ = .ok (1, ⟨[], false, some 1⟩, ⟨2⟩) ∧
    (0 : Nat) ≠ 1 := by
  exact ⟨rfl, rfl, by decide⟩

/-! ## C8 — `VM.player_by_num` -/

/-- C8 counterexample: `num = 0` is not between 1 and the number of open
clients, yet `player_by_num` does not raise a VM error — the `i >= len`
check does not fire for `i = -1` and Python list indexing wraps from the
end, returning the last client. -/
theorem c8_counterexample_num_zero :
    ¬(1 ≤ (0 : Int) ∧ (0 : Int) ≤ (([42] : List Nat).length : Int)) ∧
    player_by_num ([42] : List Nat) 0 = .ok 42 := by
  exact ⟨by decide, rfl⟩

/-- C8 (amended): `player_by_num` raises the VM range error exactly for
`num` *greater than* the client count; for `1 ≤ num ≤ count` it returns the
`num`-th client (1-based).  For `num ≤ 0` the range check does not fire:
down to `num = 1 - count` Python negative indexing returns the client at
index `count + num - 1`, and below that a plain `IndexError` (not a
`VMError`) is raised. -/
theorem c8_player_by_num_range_behavior {κ : Type} (clients : List κ) (num : Int) :
    ((clients.length : Int) < num →
       player_by_num clients num = .error .clientRangeError) ∧
    (1 ≤ num → num ≤ (clients.length : Int) →
       ∃ c, clients.get? (num - 1).toNat = some c ∧
            player_by_num clients num = .ok c) ∧
    (1 - (clients.length : Int) ≤ num → num ≤ 0 →
       ∃ c, clients.get? ((clients.length : Int) + (num - 1)).toNat = some c ∧
            player_by_num clients num = .ok c) ∧
    (num < 1 - (clients.length : Int) →
       player_by_num clients num = .error .indexError) := by
  refine ⟨?_, ?_, ?_, ?_⟩
  · intro h
    simp only [player_by_num]
    rw [if_pos (by omega)]
  · intro h1 h2
    have hk : (num - 1).toNat < clients.length := by omega
    refine ⟨clients.get ⟨(num - 1).toNat, hk⟩, List.get?_eq_get hk, ?_⟩
    simp only [player_by_num]
    rw [if_neg (by omega)]
    simp only [pyGet]
    rw [if_pos (by omega), List.get?_eq_get hk]
  · intro h1 h2
    have hk : ((clients.length : Int) + (num - 1)).toNat < clients.length := by omega
    refine ⟨clients.get ⟨_, hk⟩, List.get?_eq_get hk, ?_⟩
    simp only [player_by_num]
    rw [if_neg (by omega)]
    simp only [pyGet]
    rw [if_neg (by omega), if_pos (by omega), List.get?_eq_get hk]
  · intro h
    simp only [player_by_num]
    rw [if_neg (by omega)]
    simp only [pyGet]
    rw [if_neg (by omega), if_neg (by omega)]

/-- C8 witness: the amended theorem applied at concrete inputs (two clients;
`num = 3` raises the range error, `num = 2` returns the second client). -/
theorem c8_witness :
    player_by_num ([10, 20] : List Nat) 3 = .error .clientRangeError ∧
    player_by_num ([10, 20] : List Nat) 2 = .ok 20 := by
  constructor
  · exact (c8_player_by_num_range_behavior ([10, 20] : List Nat) 3).1 (by decide)
  · obtain ⟨c, hc, hok⟩ :=
      (c8_player_by_num_range_behavior ([10, 20] : List Nat) 2).2.1 (by decide) (by decide)
    have h20 : (20 : Nat) = c := by simpa using hc
    rw [← h20] at hok
    exact hok

/-! ## C9 — `Instruction.__repr__` -/

/-- C9 counterexample: `Instruction(jump, 0)` has a payload (`data` is not
`None`), yet its debug form is the bare kind name `"jump"`, not
`"jump 0"` — the source tests `if self.data:` (truthiness), which is false
for the payload `0`. -/
theorem c9_counterexample_falsy_payload :
    (some (PyVal.int (ε := Bool) 0) ≠ none) ∧
    instructionRepr (⟨.jump, some (.int 0)⟩ : Instruction Bool) = "jump" ∧
    instructionRepr (⟨.jump, some (.int 0)⟩ : Instruction Bool) ≠
      instructionKindName .jump ++ " " ++ pyStrOf (PyVal.int (ε := Bool) 0) := by
  refine ⟨by simp, rfl, by decide⟩

/-- C9 (amended): the debug form is the kind name followed by the payload
whenever the payload is present *and truthy* (nonzero number, nonempty
string/list, not `False`); for a falsy or absent payload it is the kind name
alone. -/
theorem c9_instruction_repr {ε : Type} (k : InstructionKind) (d : PyVal ε) :
    (pyTruthy d = true →
       instructionRepr (⟨k, some d⟩ : Instruction ε) =
         instructionKindName k ++ " " ++ pyStrOf d) ∧
    (pyTruthy d = false →
       instructionRepr (⟨k, some d⟩ : Instruction ε) = instructionKindName k) ∧
    instructionRepr (⟨k, none⟩ : Instruction ε) = instructionKindName k := by
  refine ⟨fun h => ?_, fun h => ?_, rfl⟩
  · simp [instructionRepr, h]
  · simp [instructionRepr, h]

/-- C9 witness: the amended theorem applied at a truthy payload
(`jump 3`) and at a falsy one (`bool False`). -/
theorem c9_witness :
    instructionRepr (⟨.jump, some (.int 3)⟩ : Instruction Bool) = "jump 3" ∧
    instructionRepr (⟨.sleep, some (.bool false)⟩ : Instruction Bool) = "sleep" := by
  constructor
  · have h := (c9_instruction_repr (ε := Bool) .jump (.int 3)).1 rfl
    simpa using h
  · exact (c9_instruction_repr (ε := Bool) .sleep (.bool false)).2.1 rfl

/-! ## C7 — `VM._select_players` -/

/-- C7: selector resolution is a total function (it cannot raise and may
return the empty list); `mass` yields the whole client list; otherwise the
result is always an order-preserving sublist of the clients, and on three
clients with `player_nums = {0}` the non-inverted selection is exactly
client 0, the inverted selection clients 1 and 2, and `mass` all three
regardless of `player_nums`. -/
theorem c7_select_players_resolution {κ : Type} :
    (∀ (clients : List κ) (sel : PlayerSelector),
       sel.mass = true → select_players clients sel = clients) ∧
    (∀ (clients : List κ) (sel : PlayerSelector),
       (select_players clients sel).Sublist clients) ∧
    (∀ (a b c : κ),
       select_players [a, b, c] ⟨false, false, [0]⟩ = [a] ∧
       select_players [a, b, c] ⟨false, true, [0]⟩ = [b, c] ∧
       (∀ nums : List Nat,
          select_players [a, b, c] ⟨true, false, nums⟩ = [a, b, c] ∧
          select_players [a, b, c] ⟨true, true, nums⟩ = [a, b, c]) ∧
       select_players [a, b, c] ⟨false, false, []⟩ = []) := by
  refine ⟨fun clients sel h => by simp [select_players, h], fun clients sel => ?_, ?_⟩
  · by_cases hm : sel.mass
    · simp [select_players, hm]
    · have hsub : ∀ p : Nat × κ → Bool,
          ((clients.enum.filter p).map Prod.snd).Sublist clients := by
        intro p
        have h1 : (clients.enum.filter p).Sublist clients.enum := List.filter_sublist _
        have h2 := h1.map Prod.snd
        rwa [List.enum_map_snd] at h2
      by_cases hi : sel.inverted <;> simp [select_players, hm, hi] <;> exact hsub _
  · intro a b c
    exact ⟨rfl, rfl, fun nums => ⟨rfl, rfl⟩, rfl⟩

/-- C7 witness: the resolution theorem applied to three concrete clients
with `player_nums = {0}`. -/
theorem c7_witness :
    select_players ([1, 2, 3] : List Nat) ⟨true, false, [5]⟩ = [1, 2, 3] ∧
    select_players ([1, 2, 3] : List Nat) ⟨false, false, [0]⟩ = [1] ∧
    select_players ([1, 2, 3] : List Nat) ⟨false, true, [0]⟩ = [2, 3] := by
  refine ⟨(c7_select_players_resolution.1 [1, 2, 3] ⟨true, false, [5]⟩ rfl), ?_, ?_⟩
  · exact ((c7_select_players_resolution (κ := Nat)).2.2 1 2 3).1
  · exact ((c7_select_players_resolution (κ := Nat)).2.2 1 2 3).2.1

/-! ## C6 — `Compiler.compile_command` on `waitfor` -/

/-- C6: compiling a `waitfor` command whose data flag (index 1) compares
equal to `True` emits exactly two `deimos_call` instructions — first a copy
of the command with the flag forced to `False`, then the original command —
while a flag not equal to `True` yields only the flag-false instruction.
Every emitted instruction has kind `deimos_call`. -/
theorem c6_compile_waitfor_split {ε : Type} (com : Command ε) (flag : PyVal ε)
    (hk : com.kind = .waitfor) (hflag : com.data.get? 1 = some flag) :
    (pyEqTrue flag = true →
       compile_command com = .ok
         [emit_deimos_call { com with data := com.data.set 1 (.bool false) },
          emit_deimos_call com]) ∧
    (pyEqTrue flag = false →
       compile_command com = .ok
         [emit_deimos_call { com with data := com.data.set 1 (.bool false) }]) ∧
    (∀ c : Command ε, (emit_deimos_call c).kind = .deimos_call) := by
  have hflag' : com.data[1]? = some flag := by
    rw [← List.get?_eq_getElem?]
    exact hflag
  refine ⟨fun h => ?_, fun h => ?_, fun c => rfl⟩
  · simp [compile_command, hk, hflag', h]
  · simp [compile_command, hk, hflag', h]

/-- C6 witness: a concrete `waitfor dialog` command, once with the
completion flag `True` (two instructions) and once with `False` (one). -/
theorem c6_witness :
    compile_command (⟨⟨true, false, []⟩, .waitfor,
        [.obj "WaitforKind.dialog", .bool true]⟩ : Command Bool) = .ok
      [emit_deimos_call ⟨⟨true, false, []⟩, .waitfor,
         [.obj "WaitforKind.dialog", .bool false]⟩,
       emit_deimos_call ⟨⟨true, false, []⟩, .waitfor,
         [.obj "WaitforKind.dialog", .bool true]⟩] ∧
    compile_command (⟨⟨true, false, []⟩, .waitfor,
        [.obj "WaitforKind.dialog", .bool false]⟩ : Command Bool) = .ok
      [emit_deimos_call ⟨⟨true, false, []⟩, .waitfor,
         [.obj "WaitforKind.dialog", .bool false]⟩] := by
  constructor
  · have h := (c6_compile_waitfor_split
      (⟨⟨true, false, []⟩, .waitfor, [.obj "WaitforKind.dialog", .bool true]⟩ : Command Bool)
      (.bool true) rfl rfl).1 rfl
    exact h
  · have h := (c6_compile_waitfor_split
      (⟨⟨true, false, []⟩, .waitfor, [.obj "WaitforKind.dialog", .bool false]⟩ : Command Bool)
      (.bool false) rfl rfl).2.1 rfl
    exact h

/-! ## C5 — `waitfor_impl` phases -/

theorem waitfor_coro_exit (invert : Bool) (s : Nat → Bool) (k fuel : Nat)
    (h : xor invert (s k) = true) :
    waitfor_coro invert s k (fuel + 1) = some 1 := by
  simp [waitfor_coro, h]

theorem waitfor_coro_cont (invert : Bool) (s : Nat → Bool) (k fuel : Nat)
    (h : xor invert (s k) = false) :
    waitfor_coro invert s k (fuel + 1) = (waitfor_coro invert s (k + 1) fuel).map (· + 1) := by
  simp [waitfor_coro, h]

/-- The polls performed by one `waitfor_coro` phase: at least one poll
happens, the final poll is the first one on which `invert ^ poll` holds, and
every earlier poll (contributing a sleep and another iteration) does not. -/
theorem waitfor_coro_spec (fuel : Nat) :
    ∀ (invert : Bool) (s : Nat → Bool) (k n : Nat),
      waitfor_coro invert s k fuel = some n →
      1 ≤ n ∧ xor invert (s (k + n - 1)) = true ∧
        ∀ j, j < n - 1 → xor invert (s (k + j)) = false := by
  induction fuel with
  | zero =>
      intro invert s k n h
      simp [waitfor_coro] at h
  | succ fuel ih =>
      intro invert s k n h
      by_cases hx : xor invert (s k) = true
      · rw [waitfor_coro_exit invert s k fuel hx] at h
        obtain rfl : n = 1 := by simpa using h.symm
        refine ⟨le_refl 1, by simpa using hx, ?_⟩
        intro j hj
        omega
      · have hx' : xor invert (s k) = false := by
          simpa using hx
        rw [waitfor_coro_cont invert s k fuel hx'] at h
        obtain ⟨n', hn', rfl⟩ : ∃ n', waitfor_coro invert s (k + 1) fuel = some n' ∧ n = n' + 1 := by
          cases hc : waitfor_coro invert s (k + 1) fuel with
          | none => rw [hc] at h; simp at h
          | some v => rw [hc] at h; exact ⟨v, rfl, by simpa using h.symm⟩
        obtain ⟨h1, h2, h3⟩ := ih invert s (k + 1) n' hn'
        refine ⟨by omega, ?_, ?_⟩
        · have he : k + (n' + 1) - 1 = k + 1 + n' - 1 := by omega
          rw [he]
          exact h2
        · intro j hj
          cases j with
          | zero => simpa using hx'
          | succ j' =>
              have he : k + (j' + 1) = k + 1 + j' := by omega
              rw [he]
              exact h3 j' (by omega)

/-- C5: with the completion flag clear, `waitfor_impl` consists of the
poll-until-true phase only; with it set, the poll-until-false phase starts
exactly where the fully finished first phase left off; each phase polls
until its exit condition first holds; and on a predicate yielding
`false, false, true, true, false` the first phase performs exactly 3 polls
and the second phase 2 polls. -/
theorem c5_waitfor_two_phase :
    (∀ (s : Nat → Bool) (k fuel : Nat),
       waitfor_impl false s k fuel =
         (waitfor_coro false s k fuel).map (fun n1 => (n1, none))) ∧
    (∀ (s : Nat → Bool) (k fuel : Nat) (r : Nat × Option Nat),
       waitfor_impl true s k fuel = some r →
       ∃ n1 n2, r = (n1, some n2) ∧
         waitfor_coro false s k fuel = some n1 ∧
         waitfor_coro true s (k + n1) fuel = some n2) ∧
    (∀ (invert : Bool) (s : Nat → Bool) (k fuel n : Nat),
       waitfor_coro invert s k fuel = some n →
       1 ≤ n ∧ xor invert (s (k + n - 1)) = true ∧
         ∀ j, j < n - 1 → xor invert (s (k + j)) = false) ∧
    (∀ (s : Nat → Bool) (m : Nat),
       s 0 = false → s 1 = false → s 2 = true → s 3 = true → s 4 = false →
       waitfor_impl true s 0 (m + 5) = some (3, some 2)) := by
  refine ⟨?_, ?_, fun invert s k fuel n h => waitfor_coro_spec fuel invert s k n h, ?_⟩
  · intro s k fuel
    cases h : waitfor_coro false s k fuel with
    | none => simp [waitfor_impl, h]
    | some n1 => simp [waitfor_impl, h]
  · intro s k fuel r h
    cases h1 : waitfor_coro false s k fuel with
    | none => rw [waitfor_impl, h1] at h; simp at h
    | some n1 =>
        rw [waitfor_impl, h1] at h
        simp only [if_pos rfl] at h
        cases h2 : waitfor_coro true s (k + n1) fuel with
        | none => rw [h2] at h; simp at h
        | some n2 =>
            rw [h2] at h
            refine ⟨n1, n2, ?_, rfl, h2⟩
            simpa using h.symm
  · intro s m h0 h1 h2 h3 h4
    have e0 : xor false (s 0) = false := by simp [h0]
    have e1 : xor false (s 1) = false := by simp [h1]
    have e2 : xor false (s 2) = true := by simp [h2]
    have e3 : xor true (s 3) = false := by simp [h3]
    have e4 : xor true (s 4) = true := by simp [h4]
    have t2 : waitfor_coro false s 2 (m + 3) = some 1 := by
      rw [(by omega : m + 3 = m + 2 + 1)]
      exact waitfor_coro_exit false s 2 (m + 2) e2
    have t1 : waitfor_coro false s 1 (m + 4) = some 2 := by
      rw [(by omega : m + 4 = m + 3 + 1), waitfor_coro_cont false s 1 (m + 3) e1, t2]
      rfl
    have t0 : waitfor_coro false s 0 (m + 5) = some 3 := by
      rw [(by omega : m + 5 = m + 4 + 1), waitfor_coro_cont false s 0 (m + 4) e0, t1]
      rfl
    have p4 : waitfor_coro true s 4 (m + 4) = some 1 := by
      rw [(by omega : m + 4 = m + 3 + 1)]
      exact waitfor_coro_exit true s 4 (m + 3) e4
    have p3 : waitfor_coro true s 3 (m + 5) = some 2 := by
      rw [(by omega : m + 5 = m + 4 + 1), waitfor_coro_cont true s 3 (m + 4) e3, p4]
      rfl
    rw [waitfor_impl, t0]
    simp only [if_pos rfl]
    have hk : (0 : Nat) + 3 = 3 := by omega
    rw [hk, p3]
    rfl

/-- C5 witness: the two-phase theorem applied to the concrete poll stream
`false, false, true, true, false, ...` with fuel 10. -/
theorem c5_witness :
    waitfor_impl true (fun n => n == 2 || n == 3) 0 10 = some (3, some 2) := by
  have h := c5_waitfor_two_phase.2.2.2 (fun n => n == 2 || n == 3) 5 rfl rfl rfl rfl rfl
  exact h

/-! ## C10 — `TaskWatcher._tick` -/

theorem tickAux_snd (l : List WTask) (w : TaskWatcher) : (tickAux w l).2 = w := by
  induction l with
  | nil => rfl
  | cons t rest ih =>
      cases h : t.status <;> simp [tickAux, h, ih]

theorem tickAux_fst_exc (l : List WTask) (w : TaskWatcher) (e : Nat) :
    (tickAux w l).1 = some (.exc e) ↔
      ∃ pre t post, l = pre ++ t :: post ∧ t.status = .failed e ∧
        ∀ u ∈ pre, u.status = .running ∨ u.status = .succeeded := by
  induction l with
  | nil =>
      simp [tickAux]
  | cons t rest ih =>
      cases h : t.status with
      | running =>
          rw [tickAux, h]
          simp only []
          rw [ih]
          constructor
          · rintro ⟨pre, u, post, hsplit, hu, hpre⟩
            refine ⟨t :: pre, u, post, by rw [hsplit]; simp, hu, ?_⟩
            intro v hv
            rcases List.mem_cons.mp hv with hvt | hvp
            · subst hvt; exact Or.inl h
            · exact hpre v hvp
          · rintro ⟨pre, u, post, hsplit, hu, hpre⟩
            cases pre with
            | nil =>
                simp at hsplit
                obtain ⟨ht, hrest⟩ := hsplit
                rw [← ht] at hu
                rw [h] at hu
                cases hu
            | cons p pre' =>
                simp at hsplit
                obtain ⟨hpt, hrest⟩ := hsplit
                exact ⟨pre', u, post, hrest, hu, fun v hv => hpre v (by simp [hv])⟩
      | succeeded =>
          rw [tickAux, h]
          simp only []
          rw [ih]
          constructor
          · rintro ⟨pre, u, post, hsplit, hu, hpre⟩
            refine ⟨t :: pre, u, post, by rw [hsplit]; simp, hu, ?_⟩
            intro v hv
            rcases List.mem_cons.mp hv with hvt | hvp
            · subst hvt; exact Or.inr h
            · exact hpre v hvp
          · rintro ⟨pre, u, post, hsplit, hu, hpre⟩
            cases pre with
            | nil =>
                simp at hsplit
                obtain ⟨ht, hrest⟩ := hsplit
                rw [← ht] at hu
                rw [h] at hu
                cases hu
            | cons p pre' =>
                simp at hsplit
                obtain ⟨hpt, hrest⟩ := hsplit
                exact ⟨pre', u, post, hrest, hu, fun v hv => hpre v (by simp [hv])⟩
      | failed x =>
          rw [tickAux, h]
          simp only []
          constructor
          · intro hx
            have hxe : x = e := by simpa using hx
            exact ⟨[], t, rest, rfl, by rw [h, hxe], by simp⟩
          · rintro ⟨pre, u, post, hsplit, hu, hpre⟩
            cases pre with
            | nil =>
                simp at hsplit
                obtain ⟨ht, hrest⟩ := hsplit
                rw [← ht] at hu
                rw [h] at hu
                simpa using hu
            | cons p pre' =>
                simp at hsplit
                obtain ⟨hpt, hrest⟩ := hsplit
                have hp := hpre p (by simp [hpt])
                rw [← hpt] at hp
                rcases hp with hp | hp <;> rw [hp] at h <;> cases h
      | cancelledTask =>
          rw [tickAux, h]
          simp only []
          constructor
          · intro hx
            simp at hx
          · rintro ⟨pre, u, post, hsplit, hu, hpre⟩
            cases pre with
            | nil =>
                simp at hsplit
                obtain ⟨ht, hrest⟩ := hsplit
                rw [← ht] at hu
                rw [h] at hu
                cases hu
            | cons p pre' =>
                simp at hsplit
                obtain ⟨hpt, hrest⟩ := hsplit
                have hp := hpre p (by simp [hpt])
                rw [← hpt] at hp
                rcases hp with hp | hp <;> rw [hp] at h <;> cases h

/-- C10: `_tick` never modifies the watcher — in particular the watch list
is identical before and after a tick, whether it returns normally or raises;
every registered task (including one that finished with an exception) stays
registered; whatever a tick raises, the next tick raises again; a tick
raises exception `e` precisely when the first raising task of the list
failed with `e` (all earlier ones still running or succeeded); and the only
way a task leaves the watch list is `unregister`, which removes exactly that
task. -/
theorem c10_tick_preserves_watch_set :
    (∀ w : TaskWatcher, (tick w).2 = w) ∧
    (∀ (w : TaskWatcher) (t : WTask), t ∈ w.tasks → t ∈ (tick w).2.tasks) ∧
    (∀ (w : TaskWatcher) (err : TickErr),
       (tick w).1 = some err → (tick (tick w).2).1 = some err) ∧
    (∀ (w : TaskWatcher) (e : Nat),
       (tick w).1 = some (.exc e) ↔
         ∃ pre t post, w.tasks = pre ++ t :: post ∧ t.status = .failed e ∧
           ∀ u ∈ pre, u.status = .running ∨ u.status = .succeeded) ∧
    (∀ (w w' : TaskWatcher) (t : WTask),
       unregister w t = .ok w' → w'.tasks = w.tasks.erase t) := by
  refine ⟨fun w => tickAux_snd w.tasks w, ?_, ?_, ?_, ?_⟩
  · intro w t ht
    rw [tick, tickAux_snd]
    exact ht
  · intro w err h
    have hw : (tick w).2 = w := tickAux_snd w.tasks w
    rw [hw]
    exact h
  · intro w e
    exact tickAux_fst_exc w.tasks w e
  · intro w w' t h
    rw [unregister] at h
    by_cases ht : t ∈ w.tasks
    · rw [if_pos ht] at h
      cases h
      rfl
    · rw [if_neg ht] at h
      cases h

/-- C10 witness: a concrete watcher holding a running task and a failed
task; the tick leaves the watcher unchanged and the failure re-raises on the
next tick. -/
theorem c10_witness :
    (tick ⟨[⟨0, .running⟩, ⟨1, .failed 7⟩], false, none⟩).2 =
      ⟨[⟨0, .running⟩, ⟨1, .failed 7⟩], false, none⟩ ∧
    (tick (tick ⟨[⟨0, .running⟩, ⟨1, .failed 7⟩], false, none⟩).2).1 =
      some (.exc 7) := by
  constructor
  · exact c10_tick_preserves_watch_set.1 ⟨[⟨0, .running⟩, ⟨1, .failed 7⟩], false, none⟩
  · exact c10_tick_preserves_watch_set.2.2.1
      ⟨[⟨0, .running⟩, ⟨1, .failed 7⟩], false, none⟩ (.exc 7) rfl

/-! ## C1 — `enter_until` at runtime -/

/-- Stepping any `enter_until` instruction hits the `case _` arm of
`VM.step` and raises the `Unimplemented instruction` `VMError`. -/
theorem step_enter_until_error {ε κ : Type} [BEq ε] (env : Env ε κ)
    (s : VMState ε κ) (d : Option (PyVal ε)) (hrun : s.running = true)
    (hfetch : pyGet s.program s.ip = some ⟨.enter_until, d⟩) :
    step env s = .error .unimplementedInstruction := by
  simp only [step, hrun, hfetch]
  rfl

/-- The instruction layout compiled for an `until` statement: an
`enter_until` guard (offset `B + 2` where `B` is the body length including
the appended back-jump), the body, the unconditional `jump -B`, and a
trailing `nop`. -/
theorem compile_until_layout {ε : Type} (e : ε) (body : List (Stmt ε))
    (b : List (Instruction ε)) (hb : compile_stmts body = .ok b) :
    compile_stmt (.untilStmt e body) = .ok
      ([⟨.enter_until, some (.list [.expr e,
          .int (((b ++ [(⟨.jump, some (.int (-(b.length : Int)))⟩ : Instruction ε)]).length : Int) + 1)])⟩]
       ++ (b ++ [(⟨.jump, some (.int (-(b.length : Int)))⟩ : Instruction ε)])
       ++ [⟨.nop, none⟩]) := by
  simp only [compile_stmt, hb]
  rfl

/-- C1: the claim (and spec) say `VM.step` evaluates `enter_until`'s
condition as an entry guard and enters the compiled loop body.  On the code
this fails: `VM.step`'s `match` has no `enter_until` case at all, so the
`case _` arm raises `VMError("Unimplemented instruction: ...")`.
Consequently *every* program compiled from an `until` statement — which
always begins with the `enter_until` instruction — errors out on the very
first step, before any body instruction runs. -/
theorem c1_enter_until_raises_unimplemented {ε κ : Type} [BEq ε] (env : Env ε κ) :
    (∀ (s : VMState ε κ) (d : Option (PyVal ε)),
       s.running = true →
       pyGet s.program s.ip = some ⟨.enter_until, d⟩ →
       step env s = .error .unimplementedInstruction) ∧
    (∀ (e : Bool) (body : List (Stmt Bool)) (b prog : List (Instruction Bool))
       (clients : List Unit),
       compile_stmts body = .ok b →
       compile_stmt (.untilStmt e body) = .ok prog →
       step oracleEnv (initVM clients prog) = .error .unimplementedInstruction) := by
  constructor
  · intro s d hrun hfetch
    exact step_enter_until_error env s d hrun hfetch
  · intro e body b prog clients hb hp
    rw [compile_until_layout e body b hb] at hp
    injection hp with hp
    subst hp
    exact step_enter_until_error oracleEnv _ _ rfl rfl

/-- C1 witness: the concrete program compiled from
`until <cond> { dec_var x }` — `enter_until`, `dec_var x`, `jump -1`,
`nop` — errors with the unimplemented-instruction `VMError` on its very
first step. -/
theorem c1_witness :
    compile_stmt (Stmt.untilStmt true [Stmt.decVarStmt "x"]) = .ok
      ([⟨.enter_until, some (.list [.expr true, .int 3])⟩,
        ⟨.dec_var, some (.str "x")⟩,
        ⟨.jump, some (.int (-1))⟩,
        ⟨.nop, none⟩] : List (Instruction Bool)) ∧
    step oracleEnv (initVM ([] : List Unit)
      ([⟨.enter_until, some (.list [.expr true, .int 3])⟩,
        ⟨.dec_var, some (.str "x")⟩,
        ⟨.jump, some (.int (-1))⟩,
        ⟨.nop, none⟩] : List (Instruction Bool))) = .error .unimplementedInstruction := by
  constructor
  · rfl
  · exact (c1_enter_until_raises_unimplemented oracleEnv).2 true [Stmt.decVarStmt "x"]
      [⟨.dec_var, some (.str "x")⟩] _ [] rfl rfl

/-! ## C3 — `call`/`ret` semantics and LIFO unwinding -/

theorem find_label_some_spec {ε : Type} [BEq ε] (prog : List (Instruction ε))
    (lbl : Option (PyVal ε)) :
    ∀ (j0 j : Nat), find_label prog lbl j0 = some j →
      j ≤ j0 ∧ isLabelMatch prog lbl j = true ∧
        ∀ j', j < j' → j' ≤ j0 → isLabelMatch prog lbl j' = false := by
  intro j0
  induction j0 with
  | zero =>
      intro j h
      rw [find_label] at h
      by_cases hm : isLabelMatch prog lbl 0 = true
      · rw [if_pos hm] at h
        obtain rfl : j = 0 := by simpa using h.symm
        exact ⟨le_refl 0, hm, fun j' h1 h2 => by omega⟩
      · rw [if_neg hm] at h
        cases h
  | succ j0 ih =>
      intro j h
      rw [find_label] at h
      by_cases hm : isLabelMatch prog lbl (j0 + 1) = true
      · rw [if_pos hm] at h
        obtain rfl : j = j0 + 1 := by simpa using h.symm
        exact ⟨le_refl _, hm, fun j' h1 h2 => by omega⟩
      · rw [if_neg hm] at h
        obtain ⟨h1, h2, h3⟩ := ih j h
        refine ⟨by omega, h2, fun j' hlt hle => ?_⟩
        by_cases hj' : j' = j0 + 1
        · rw [hj']
          simpa using hm
        · exact h3 j' hlt (by omega)

theorem find_label_none_spec {ε : Type} [BEq ε] (prog : List (Instruction ε))
    (lbl : Option (PyVal ε)) :
    ∀ j0, find_label prog lbl j0 = none →
      ∀ j', j' ≤ j0 → isLabelMatch prog lbl j' = false := by
  intro j0
  induction j0 with
  | zero =>
      intro h j' hle
      rw [find_label] at h
      by_cases hm : isLabelMatch prog lbl 0 = true
      · rw [if_pos hm] at h
        cases h
      · rw [if_neg hm] at h
        obtain rfl : j' = 0 := by omega
        simpa using hm
  | succ j0 ih =>
      intro h j' hle
      rw [find_label] at h
      by_cases hm : isLabelMatch prog lbl (j0 + 1) = true
      · rw [if_pos hm] at h
        cases h
      · rw [if_neg hm] at h
        by_cases hj' : j' = j0 + 1
        · rw [hj']
          simpa using hm
        · exact ih h j' (by omega)

theorem isLabelMatch_length {ε : Type} [BEq ε] (prog : List (Instruction ε))
    (lbl : Option (PyVal ε)) (j : Nat) (h : isLabelMatch prog lbl j = true) :
    j < prog.length := by
  rw [isLabelMatch] at h
  cases hg : prog.get? j with
  | none => rw [hg] at h; cases h
  | some x =>
      obtain ⟨hlt, _⟩ := List.get?_eq_some.mp hg
      exact hlt

theorem step_call_found {ε κ : Type} [BEq ε] (env : Env ε κ) (s : VMState ε κ)
    (lbl : Option (PyVal ε)) (j : Nat)
    (hrun : s.running = true)
    (hfetch : pyGet s.program s.ip = some ⟨.call, lbl⟩)
    (hip : 0 < s.ip)
    (hfind : find_label s.program lbl (s.ip - 1).toNat = some j)
    (hlt : (j : Int) < (s.program.length : Int)) :
    step env s = .ok { s with callstack := (s.ip + 1) :: s.callstack, ip := (j : Int) } := by
  simp only [step, hrun, hfetch]
  rw [if_neg (by simp), if_neg (by omega), hfind]
  simp only [pure_bind]
  rw [if_neg (not_le.mpr hlt)]
  rfl

theorem step_call_not_found {ε κ : Type} [BEq ε] (env : Env ε κ) (s : VMState ε κ)
    (lbl : Option (PyVal ε))
    (hrun : s.running = true)
    (hfetch : pyGet s.program s.ip = some ⟨.call, lbl⟩)
    (hmiss : s.ip ≤ 0 ∨ find_label s.program lbl (s.ip - 1).toNat = none) :
    step env s = .error .unableToFindLabel := by
  simp only [step, hrun, hfetch]
  rw [if_neg (by simp)]
  rcases hmiss with hmiss | hmiss
  · rw [if_pos hmiss]
    rfl
  · by_cases hip : s.ip ≤ 0
    · rw [if_pos hip]
      rfl
    · rw [if_neg hip, hmiss]
      rfl

theorem step_call_stack {ε κ : Type} [BEq ε] (env : Env ε κ) (s u : VMState ε κ)
    (lbl : Option (PyVal ε))
    (hrun : s.running = true)
    (hfetch : pyGet s.program s.ip = some ⟨.call, lbl⟩)
    (hstep : step env s = .ok u) :
    u.callstack = (s.ip + 1) :: s.callstack := by
  simp only [step, hrun, hfetch] at hstep
  rw [if_neg (by simp)] at hstep
  by_cases hip : s.ip ≤ 0
  · rw [if_pos hip] at hstep
    exact Except.noConfusion hstep
  · rw [if_neg hip] at hstep
    cases hfind : find_label s.program lbl (s.ip - 1).toNat with
    | none =>
        rw [hfind] at hstep
        exact Except.noConfusion hstep
    | some j =>
        rw [hfind] at hstep
        simp only [pure_bind] at hstep
        split at hstep <;> (injection hstep with h; rw [← h])

theorem step_ret_pop {ε κ : Type} [BEq ε] (env : Env ε κ) (s : VMState ε κ)
    (d : Option (PyVal ε)) (r : Int) (rest : List Int)
    (hrun : s.running = true)
    (hfetch : pyGet s.program s.ip = some ⟨.ret, d⟩)
    (hcs : s.callstack = r :: rest)
    (hlt : r < (s.program.length : Int)) :
    step env s = .ok { s with ip := r, callstack := rest } := by
  simp only [step, hrun, hfetch, hcs]
  rw [if_neg (by simp)]
  simp only [pure_bind]
  rw [if_neg (not_le.mpr hlt)]
  rfl

theorem step_ret_empty {ε κ : Type} [BEq ε] (env : Env ε κ) (s : VMState ε κ)
    (d : Option (PyVal ε))
    (hrun : s.running = true)
    (hfetch : pyGet s.program s.ip = some ⟨.ret, d⟩)
    (hcs : s.callstack = []) :
    step env s = .error .popFromEmptyList := by
  simp only [step, hrun, hfetch, hcs]
  rfl

theorem step_ret_stack {ε κ : Type} [BEq ε] (env : Env ε κ) (s u : VMState ε κ)
    (d : Option (PyVal ε))
    (hrun : s.running = true)
    (hfetch : pyGet s.program s.ip = some ⟨.ret, d⟩)
    (hstep : step env s = .ok u) :
    s.callstack = u.ip :: u.callstack := by
  simp only [step, hrun, hfetch] at hstep
  rw [if_neg (by simp)] at hstep
  cases hcs : s.callstack with
  | nil =>
      rw [hcs] at hstep
      exact Except.noConfusion hstep
  | cons r rest =>
      rw [hcs] at hstep
      simp only [pure_bind] at hstep
      split at hstep <;> (injection hstep with h; rw [← h])

theorem neutral_callstack {ε κ : Type} [BEq ε] {env : Env ε κ}
    {s t : VMState ε κ} (h : Neutral env s t) : t.callstack = s.callstack := by
  induction h with
  | refl s => rfl
  | head hstep _ ih => exact ih.trans hstep.2.1

theorem callSeq_callstack {ε κ : Type} [BEq ε] {env : Env ε κ}
    {s v : VMState ε κ} {sites : List Int} (h : CallSeq env s sites v) :
    v.callstack = (sites.reverse.map (· + 1)) ++ s.callstack := by
  induction h with
  | nil s => simp
  | @call s1 t1 u1 v1 lbl1 sites1 hn hrun hfetch hstep hrest ih =>
      have hu : u1.callstack = (t1.ip + 1) :: t1.callstack :=
        step_call_stack env t1 u1 lbl1 hrun hfetch hstep
      have ht : t1.callstack = s1.callstack := neutral_callstack hn
      rw [ih, hu, ht]
      simp

theorem retSeq_callstack {ε κ : Type} [BEq ε] {env : Env ε κ}
    {s v : VMState ε κ} {resumes : List Int} (h : RetSeq env s resumes v) :
    s.callstack = resumes ++ v.callstack := by
  induction h with
  | nil s => rfl
  | @ret s1 t1 u1 v1 d1 resumes1 hn hrun hfetch hstep hrest ih =>
      have ht : t1.callstack = s1.callstack := neutral_callstack hn
      have hu : t1.callstack = u1.ip :: u1.callstack :=
        step_ret_stack env t1 u1 d1 hrun hfetch hstep
      rw [← ht, hu, ih]
      rfl

/-- C3: `call` pushes `pointer + 1` and jumps to the label found by a
*strictly backward* scan that stops at the *nearest* matching `label`
(characterised by `find_label_some_spec`); a missing label is a fatal
`VMError`; `ret` pops the top return address into the pointer, and an empty
call stack is a fatal error (`IndexError` from `list.pop`).  Consequently,
for any sequence of N executed calls (interleaved with steps that do not
touch the call stack) followed by N executed returns, the returns resume in
exactly the reverse (LIFO) order of the calls, each at the instruction
immediately following its call site, and the call stack ends where it
started. -/
theorem c3_call_ret_lifo {ε κ : Type} [BEq ε] (env : Env ε κ) :
    (∀ (prog : List (Instruction ε)) (lbl : Option (PyVal ε)) (j0 j : Nat),
       find_label prog lbl j0 = some j →
       j ≤ j0 ∧ isLabelMatch prog lbl j = true ∧
         ∀ j', j < j' → j' ≤ j0 → isLabelMatch prog lbl j' = false) ∧
    (∀ (s : VMState ε κ) (lbl : Option (PyVal ε)) (j : Nat),
       s.running = true →
       pyGet s.program s.ip = some ⟨.call, lbl⟩ →
       0 < s.ip →
       find_label s.program lbl (s.ip - 1).toNat = some j →
       (j : Int) < (s.program.length : Int) →
       step env s = .ok { s with callstack := (s.ip + 1) :: s.callstack, ip := (j : Int) }) ∧
    (∀ (s : VMState ε κ) (lbl : Option (PyVal ε)),
       s.running = true →
       pyGet s.program s.ip = some ⟨.call, lbl⟩ →
       (s.ip ≤ 0 ∨ find_label s.program lbl (s.ip - 1).toNat = none) →
       step env s = .error .unableToFindLabel) ∧
    (∀ (s : VMState ε κ) (d : Option (PyVal ε)) (r : Int) (rest : List Int),
       s.running = true →
       pyGet s.program s.ip = some ⟨.ret, d⟩ →
       s.callstack = r :: rest →
       r < (s.program.length : Int) →
       step env s = .ok { s with ip := r, callstack := rest }) ∧
    (∀ (s : VMState ε κ) (d : Option (PyVal ε)),
       s.running = true →
       pyGet s.program s.ip = some ⟨.ret, d⟩ →
       s.callstack = [] →
       step env s = .error .popFromEmptyList) ∧
    (∀ (s t v : VMState ε κ) (sites resumes : List Int),
       CallSeq env s sites t →
       RetSeq env t resumes v →
       resumes.length = sites.length →
       resumes = sites.reverse.map (· + 1) ∧ v.callstack = s.callstack) := by
  refine ⟨fun prog lbl j0 j h => find_label_some_spec prog lbl j0 j h,
          fun s lbl j h1 h2 h3 h4 h5 => step_call_found env s lbl j h1 h2 h3 h4 h5,
          fun s lbl h1 h2 h3 => step_call_not_found env s lbl h1 h2 h3,
          fun s d r rest h1 h2 h3 h4 => step_ret_pop env s d r rest h1 h2 h3 h4,
          fun s d h1 h2 h3 => step_ret_empty env s d h1 h2 h3,
          ?_⟩
  intro s t v sites resumes hcall hret hlen
  have h1 : t.callstack = (sites.reverse.map (· + 1)) ++ s.callstack :=
    callSeq_callstack hcall
  have h2 : t.callstack = resumes ++ v.callstack := retSeq_callstack hret
  have h3 : resumes ++ v.callstack = (sites.reverse.map (· + 1)) ++ s.callstack := by
    rw [← h2, h1]
  have hl : resumes.length = (sites.reverse.map (· + 1)).length := by
    simp [hlen]
  exact List.append_inj h3 hl

/-- C3 witness: on `callRetDemoProgram`, executing `call a` (at 6) and then
`call b` (at 4) and unwinding with two `ret`s resumes at 5 and then 7 —
exactly the reverse of the call order, each at the instruction directly
after its call — leaving the call stack as it started. -/
theorem c3_witness :
    ([5, 7] : List Int) = (([6, 4] : List Int).reverse.map (· + 1)) ∧
    ([] : List Int) = ([] : List Int) := by
  have n01 : Neutral oracleEnv
      (⟨[], callRetDemoProgram, true, false, 0, []⟩ : VMState Bool Unit)
      ⟨[], callRetDemoProgram, true, false, 6, []⟩ :=
    Neutral.head ⟨rfl, rfl, rfl⟩ (Neutral.refl _)
  have n23 : Neutral oracleEnv
      (⟨[], callRetDemoProgram, true, false, 3, [7]⟩ : VMState Bool Unit)
      ⟨[], callRetDemoProgram, true, false, 4, [7]⟩ :=
    Neutral.head ⟨rfl, rfl, rfl⟩ (Neutral.refl _)
  have hc2 : CallSeq oracleEnv
      (⟨[], callRetDemoProgram, true, false, 3, [7]⟩ : VMState Bool Unit) [4]
      ⟨[], callRetDemoProgram, true, false, 1, [5, 7]⟩ :=
    CallSeq.call n23 rfl rfl rfl (CallSeq.nil _)
  have hcall : CallSeq oracleEnv
      (⟨[], callRetDemoProgram, true, false, 0, []⟩ : VMState Bool Unit) [6, 4]
      ⟨[], callRetDemoProgram, true, false, 1, [5, 7]⟩ :=
    CallSeq.call n01 rfl rfl rfl hc2
  have n45 : Neutral oracleEnv
      (⟨[], callRetDemoProgram, true, false, 1, [5, 7]⟩ : VMState Bool Unit)
      ⟨[], callRetDemoProgram, true, false, 2, [5, 7]⟩ :=
    Neutral.head ⟨rfl, rfl, rfl⟩ (Neutral.refl _)
  have hr2 : RetSeq oracleEnv
      (⟨[], callRetDemoProgram, true, false, 5, [7]⟩ : VMState Bool Unit) [7]
      ⟨[], callRetDemoProgram, true, false, 7, []⟩ :=
    RetSeq.ret
      (Neutral.refl (⟨[], callRetDemoProgram, true, false, 5, [7]⟩ : VMState Bool Unit))
      rfl rfl rfl (RetSeq.nil _)
  have hret : RetSeq oracleEnv
      (⟨[], callRetDemoProgram, true, false, 1, [5, 7]⟩ : VMState Bool Unit) [5, 7]
      ⟨[], callRetDemoProgram, true, false, 7, []⟩ :=
    RetSeq.ret n45 rfl rfl rfl hr2
  exact (c3_call_ret_lifo oracleEnv).2.2.2.2.2 _ _ _ [6, 4] [5, 7] hcall hret rfl

/-! ## C2 — `if` lowering executes exactly the selected branch -/

theorem exceptOkBind {σ α β : Type} (a : α) (f : α → Except σ β) :
    (Except.ok a : Except σ α) >>= f = f a := rfl

theorem exceptErrBind {σ α β : Type} (e : σ) (f : α → Except σ β) :
    (Except.error e : Except σ α) >>= f = Except.error e := rfl

theorem advOne_label {ε κ : Type} [BEq ε] (env : Env ε κ) (d : Option (PyVal ε)) :
    AdvOne env ⟨.label, d⟩ := by
  intro s hrun hfetch hlt
  simp only [step, hrun, hfetch]
  rw [if_neg (by simp)]
  simp only [pure_bind]
  rw [if_neg (not_le.mpr hlt)]
  rfl

theorem advOne_log_literal {ε κ : Type} [BEq ε] (env : Env ε κ)
    (xs : List (PyVal ε)) (ss : List String)
    (h : logLiteralStrs xs = .ok ss) :
    AdvOne (κ := κ) env ⟨.log_literal, some (.list xs)⟩ := by
  intro s hrun hfetch hlt
  simp only [step, hrun, hfetch, h, exceptOkBind]
  rw [if_neg (by simp)]
  simp only [pure_bind]
  rw [if_neg (not_le.mpr hlt)]
  rfl

theorem step_jump {ε κ : Type} [BEq ε] (env : Env ε κ) (s : VMState ε κ) (off : Int)
    (hrun : s.running = true)
    (hfetch : pyGet s.program s.ip = some ⟨.jump, some (.int off)⟩)
    (hlt : s.ip + off < (s.program.length : Int)) :
    step env s = .ok { s with ip := s.ip + off } := by
  simp only [step, hrun, hfetch]
  rw [if_neg (by simp)]
  simp only [pure_bind]
  rw [if_neg (not_le.mpr hlt)]
  rfl

theorem step_jump_if_true {ε κ : Type} [BEq ε] (env : Env ε κ) (s : VMState ε κ)
    (e : ε) (off : Int) (rest : List (PyVal ε))
    (hrun : s.running = true)
    (hfetch : pyGet s.program s.ip = some ⟨.jump_if, some (.list (.expr e :: .int off :: rest))⟩)
    (hb : env.evalTruthy e = .ok true)
    (hlt : s.ip + off < (s.program.length : Int)) :
    step env s = .ok { s with ip := s.ip + off } := by
  simp only [step, hrun, hfetch, hb, exceptOkBind]
  rw [if_neg (by simp)]
  simp only [if_true]
  simp only [pure_bind]
  rw [if_neg (not_le.mpr hlt)]
  rfl

theorem step_jump_if_false {ε κ : Type} [BEq ε] (env : Env ε κ) (s : VMState ε κ)
    (e : ε) (off : Int) (rest : List (PyVal ε))
    (hrun : s.running = true)
    (hfetch : pyGet s.program s.ip = some ⟨.jump_if, some (.list (.expr e :: .int off :: rest))⟩)
    (hb : env.evalTruthy e = .ok false)
    (hlt : s.ip + 1 < (s.program.length : Int)) :
    step env s = .ok { s with ip := s.ip + 1 } := by
  simp only [step, hrun, hfetch, hb, exceptOkBind]
  rw [if_neg (by simp)]
  rw [if_neg (by simp)]
  simp only [pure_bind]
  rw [if_neg (not_le.mpr hlt)]
  rfl

theorem pyGet_append_right {α : Type} (A B : List α) (i : Int) (h0 : 0 ≤ i) :
    pyGet (A ++ B) ((A.length : Int) + i) = pyGet B i := by
  rw [pyGet_nonneg _ _ (by omega), pyGet_nonneg _ _ h0,
      List.get?_append_right (by omega)]
  congr 1
  omega

theorem pyGet_append_left {α : Type} (A B : List α) (i : Int) (h0 : 0 ≤ i)
    (h1 : i < (A.length : Int)) :
    pyGet (A ++ B) i = pyGet A i := by
  rw [pyGet_nonneg _ _ h0, pyGet_nonneg _ _ h0, List.get?_append (by omega)]

theorem stepsTrace_add {ε κ : Type} [BEq ε] (env : Env ε κ) (m n : Nat) :
    ∀ s : VMState ε κ,
      stepsTrace env (m + n) s = (do
        let p1 ← stepsTrace env m s
        let p2 ← stepsTrace env n p1.2
        pure (p1.1 ++ p2.1, p2.2)) := by
  induction m with
  | zero =>
      intro s
      simp only [Nat.zero_add, stepsTrace, exceptOkBind]
      cases h : stepsTrace env n s with
      | error e => simp [h, exceptErrBind]
      | ok p => simp [h, exceptOkBind]
  | succ m ih =>
      intro s
      rw [(by omega : m + 1 + n = (m + n) + 1)]
      cases hs : step env s with
      | error e =>
          simp only [stepsTrace, hs, exceptErrBind]
      | ok s' =>
          simp only [stepsTrace, hs, exceptOkBind]
          rw [ih s']
          cases h1 : stepsTrace env m s' with
          | error e => simp [h1, exceptErrBind, exceptOkBind]
          | ok p1 =>
              simp only [h1, exceptOkBind]
              cases h2 : stepsTrace env n p1.2 with
              | error e => simp [h2, exceptErrBind, exceptOkBind]
              | ok p2 => simp [h2, exceptOkBind]

theorem stepsTrace_straight {ε κ : Type} [BEq ε] (env : Env ε κ) (m : Nat) :
    ∀ s : VMState ε κ, s.running = true → 0 ≤ s.ip →
      s.ip + m < (s.program.length : Int) →
      (∀ k : Nat, k < m → ∃ i, pyGet s.program (s.ip + k) = some i ∧ AdvOne env i) →
      stepsTrace env m s =
        .ok ((List.range m).map (fun k : Nat => s.ip + (k : Int)),
             { s with ip := s.ip + m }) := by
  induction m with
  | zero =>
      intro s hrun hip hlen hblock
      simp [stepsTrace]
  | succ m ih =>
      intro s hrun hip hlen hblock
      obtain ⟨i0, hf0, hadv⟩ := hblock 0 (by omega)
      have hf0' : pyGet s.program s.ip = some i0 := by simpa using hf0
      have hlt1 : s.ip + 1 < (s.program.length : Int) := by push_cast at hlen; omega
      have hstep : step env s = .ok { s with ip := s.ip + 1 } := hadv s hrun hf0' hlt1
      have hrec := ih { s with ip := s.ip + 1 } hrun
        (by show (0 : Int) ≤ s.ip + 1; omega)
        (by show s.ip + 1 + (m : Int) < (s.program.length : Int); push_cast at hlen; omega)
        (by
          intro k hk
          obtain ⟨i, hfi, hai⟩ := hblock (k + 1) (by omega)
          refine ⟨i, ?_, hai⟩
          show pyGet s.program (s.ip + 1 + (k : Int)) = some i
          have he : s.ip + 1 + (k : Int) = s.ip + ((k : Nat) + 1 : Nat) := by push_cast; ring
          rw [he]
          exact hfi)
      have hlist : (s.ip : Int) :: (List.range m).map (fun k : Nat => s.ip + 1 + (k : Int)) =
          (List.range (m + 1)).map (fun k : Nat => s.ip + (k : Int)) := by
        rw [List.range_succ_eq_map, List.map_cons, List.map_map]
        refine congrArg₂ List.cons (by simp) ?_
        apply List.map_congr_left
        intro a ha
        simp only [Function.comp]
        push_cast
        ring
      simp only [stepsTrace, hstep, exceptOkBind, hrec]
      rw [hlist]
      have hip2 : s.ip + 1 + (m : Int) = s.ip + ((m + 1 : Nat) : Int) := by push_cast; ring
      rw [hip2]
      rfl

theorem compile_if_layout {ε : Type} (e : ε) (bt bf : List (Stmt ε))
    (fIns tIns : List (Instruction ε))
    (hf : compile_stmts bf = .ok fIns) (ht : compile_stmts bt = .ok tIns) :
    compile_stmt (.ifStmt e bt bf) = .ok
      ([⟨.jump_if, some (.list [.expr e, .int ((fIns.length : Int) + 2)])⟩]
       ++ fIns ++ [⟨.jump, some (.int ((tIns.length : Int) + 1))⟩]
       ++ tIns ++ [⟨.nop, none⟩]) := by
  simp only [compile_stmt, hf, ht]
  rfl

theorem pyGet_if_layout_true {ε : Type} (jq jmp np : Instruction ε)
    (fIns tIns : List (Instruction ε)) (k : Nat) (hk : k < tIns.length) :
    pyGet ([jq] ++ fIns ++ [jmp] ++ tIns ++ [np])
      ((fIns.length : Int) + 2 + (k : Int)) = tIns.get? k := by
  have hA : [jq] ++ fIns ++ [jmp] ++ tIns ++ [np]
      = ([jq] ++ fIns ++ [jmp]) ++ (tIns ++ [np]) := by
    simp [List.append_assoc]
  have hAlen : ((([jq] ++ fIns ++ [jmp]).length : Nat) : Int) = (fIns.length : Int) + 2 := by
    simp [List.length_append]
    push_cast
    ring
  rw [hA]
  rw [show (fIns.length : Int) + 2 + (k : Int)
      = ((([jq] ++ fIns ++ [jmp]).length : Nat) : Int) + (k : Int) from by rw [hAlen]]
  rw [pyGet_append_right _ _ _ (by omega)]
  rw [pyGet_append_left _ _ _ (by omega) (by push_cast; omega)]
  rw [pyGet_nonneg _ _ (by omega)]
  simp

theorem pyGet_if_layout_false {ε : Type} (jq jmp np : Instruction ε)
    (fIns tIns : List (Instruction ε)) (k : Nat) (hk : k < fIns.length) :
    pyGet ([jq] ++ fIns ++ [jmp] ++ tIns ++ [np]) ((1 : Int) + (k : Int)) = fIns.get? k := by
  have hA : [jq] ++ fIns ++ [jmp] ++ tIns ++ [np]
      = [jq] ++ (fIns ++ ([jmp] ++ (tIns ++ [np]))) := by
    simp [List.append_assoc]
  rw [hA]
  rw [show (1 : Int) + (k : Int)
      = ((([jq] : List (Instruction ε)).length : Nat) : Int) + (k : Int) from rfl]
  rw [pyGet_append_right _ _ _ (by omega)]
  rw [pyGet_append_left _ _ _ (by omega) (by push_cast; omega)]
  rw [pyGet_nonneg _ _ (by omega)]
  simp

theorem pyGet_if_layout_jump {ε : Type} (jq jmp np : Instruction ε)
    (fIns tIns : List (Instruction ε)) :
    pyGet ([jq] ++ fIns ++ [jmp] ++ tIns ++ [np]) ((fIns.length : Int) + 1) = some jmp := by
  have hA : [jq] ++ fIns ++ [jmp] ++ tIns ++ [np]
      = ([jq] ++ fIns) ++ ([jmp] ++ (tIns ++ [np])) := by
    simp [List.append_assoc]
  have hAlen : ((([jq] ++ fIns).length : Nat) : Int) = 1 + (fIns.length : Int) := by
    simp [List.length_append]
    omega
  have hidx : (fIns.length : Int) + 1 = ((([jq] ++ fIns).length : Nat) : Int) + (0 : Int) := by
    rw [hAlen]
    ring
  rw [hA, hidx]
  rw [pyGet_append_right _ _ _ (by omega)]
  rfl

theorem exceptPureEqOk {σ α : Type} (a b : α) (h : a = b) :
    (pure a : Except σ α) = Except.ok b := by
  rw [h]
  rfl

theorem stepsTrace_one {ε κ : Type} [BEq ε] (env : Env ε κ) (s s' : VMState ε κ)
    (h : step env s = .ok s') :
    stepsTrace env 1 s = .ok ([s.ip], s') := by
  rw [(by omega : (1 : Nat) = 0 + 1)]
  simp only [stepsTrace, h, exceptOkBind]
  rfl

/-- C2: for an `if` whose compiled false branch is `fIns` (length `F`) and
compiled true branch is `tIns` (length `T`), the compiled program is
`jump_if (cond, F+2); fIns; jump (T+1); tIns; nop`.  Executing it with a
true condition performs `1 + T` steps visiting exactly position 0 (the
`jump_if`) and the true-branch positions `F+2 .. F+T+1`, leaving the
instruction pointer at the trailing `nop` join point `F+T+2`; with a false
condition it performs `1 + F + 1` steps visiting exactly position 0, the
false-branch positions `1 .. F` and the internal `jump` at `F+1`, likewise
ending at the join point.  Branch instructions are assumed straight-line
(`AdvOne`): each advances the pointer by one, as every non-jump,
non-control instruction does. -/
theorem c2_if_lowering_executes_branch {ε κ : Type} [BEq ε] (env : Env ε κ)
    (clients : List κ) (e : ε) (bt bf : List (Stmt ε))
    (fIns tIns prog : List (Instruction ε))
    (hf : compile_stmts bf = .ok fIns)
    (ht : compile_stmts bt = .ok tIns)
    (hp : compile_stmt (.ifStmt e bt bf) = .ok prog) :
    (prog = [⟨.jump_if, some (.list [.expr e, .int ((fIns.length : Int) + 2)])⟩]
          ++ fIns ++ [⟨.jump, some (.int ((tIns.length : Int) + 1))⟩]
          ++ tIns ++ [⟨.nop, none⟩]) ∧
    (env.evalTruthy e = .ok true → (∀ i ∈ tIns, AdvOne env i) →
      stepsTrace env (1 + tIns.length) (initVM clients prog) =
        .ok ((0 : Int) :: (List.range tIns.length).map
               (fun k : Nat => (fIns.length : Int) + 2 + (k : Int)),
             { initVM clients prog with
                 ip := (fIns.length : Int) + (tIns.length : Int) + 2 })) ∧
    (env.evalTruthy e = .ok false → (∀ i ∈ fIns, AdvOne env i) →
      stepsTrace env (1 + fIns.length + 1) (initVM clients prog) =
        .ok ((0 : Int) :: ((List.range fIns.length).map (fun k : Nat => (1 : Int) + (k : Int))
               ++ [(fIns.length : Int) + 1]),
             { initVM clients prog with
                 ip := (fIns.length : Int) + (tIns.length : Int) + 2 })) := by
  have hlay := compile_if_layout e bt bf fIns tIns hf ht
  rw [hp] at hlay
  injection hlay with hprog
  subst hprog
  refine ⟨rfl, ?_, ?_⟩
  · intro htrue hadvT
    set L : List (Instruction ε) :=
      [⟨.jump_if, some (.list [.expr e, .int ((fIns.length : Int) + 2)])⟩]
      ++ fIns ++ [⟨.jump, some (.int ((tIns.length : Int) + 1))⟩]
      ++ tIns ++ [⟨.nop, none⟩] with hLdef
    have hLlen : ((L.length : Nat) : Int) = (fIns.length : Int) + (tIns.length : Int) + 3 := by
      rw [hLdef]
      simp only [List.length_append, List.length_cons, List.length_nil]
      push_cast
      omega
    have hfetch0 : pyGet (initVM (ε := ε) (κ := κ) clients L).program
        (initVM (ε := ε) (κ := κ) clients L).ip
        = some ⟨.jump_if, some (.list (.expr e :: .int ((fIns.length : Int) + 2) :: []))⟩ := by
      rw [hLdef]
      rfl
    have hstep1 : step env (initVM clients L) =
        .ok { initVM (ε := ε) (κ := κ) clients L with
                ip := (initVM (ε := ε) (κ := κ) clients L).ip + ((fIns.length : Int) + 2) } := by
      refine step_jump_if_true env _ e _ [] rfl hfetch0 htrue ?_
      show (0 : Int) + ((fIns.length : Int) + 2) < ((L.length : Nat) : Int)
      omega
    have h1 := stepsTrace_one env _ _ hstep1
    have hbT := stepsTrace_straight env tIns.length
      { initVM (ε := ε) (κ := κ) clients L with
          ip := (initVM (ε := ε) (κ := κ) clients L).ip + ((fIns.length : Int) + 2) }
      rfl
      (by show (0 : Int) ≤ (0 : Int) + ((fIns.length : Int) + 2); omega)
      (by show (0 : Int) + ((fIns.length : Int) + 2) + (tIns.length : Int) < ((L.length : Nat) : Int)
          omega)
      (by
        intro k hk
        obtain ⟨i, hi⟩ : ∃ i, tIns.get? k = some i := ⟨tIns.get ⟨k, hk⟩, List.get?_eq_get hk⟩
        refine ⟨i, ?_, hadvT i (List.get?_mem hi)⟩
        show pyGet L ((0 : Int) + ((fIns.length : Int) + 2) + (k : Int)) = some i
        rw [show (0 : Int) + ((fIns.length : Int) + 2) + (k : Int)
            = (fIns.length : Int) + 2 + (k : Int) from by ring]
        rw [hLdef, pyGet_if_layout_true _ _ _ fIns tIns k hk, hi])
    rw [stepsTrace_add env 1 tIns.length, h1]
    simp only [exceptOkBind, pure_bind]
    rw [hbT]
    simp only [exceptOkBind, pure_bind]
    refine exceptPureEqOk _ _ ?_
    refine congrArg₂ Prod.mk ?_ ?_
    · refine congrArg₂ List.cons rfl ?_
      apply List.map_congr_left
      intro a ha
      show (0 : Int) + ((fIns.length : Int) + 2) + (a : Int)
          = (fIns.length : Int) + 2 + (a : Int)
      ring
    · show ({ initVM (ε := ε) (κ := κ) clients L with
          ip := (0 : Int) + ((fIns.length : Int) + 2) + (tIns.length : Int) } : VMState ε κ)
        = { initVM (ε := ε) (κ := κ) clients L with
          ip := (fIns.length : Int) + (tIns.length : Int) + 2 }
      congr 1
      ring
  · intro hfalse hadvF
    set L : List (Instruction ε) :=
      [⟨.jump_if, some (.list [.expr e, .int ((fIns.length : Int) + 2)])⟩]
      ++ fIns ++ [⟨.jump, some (.int ((tIns.length : Int) + 1))⟩]
      ++ tIns ++ [⟨.nop, none⟩] with hLdef
    have hLlen : ((L.length : Nat) : Int) = (fIns.length : Int) + (tIns.length : Int) + 3 := by
      rw [hLdef]
      simp only [List.length_append, List.length_cons, List.length_nil]
      push_cast
      omega
    have hfetch0 : pyGet (initVM (ε := ε) (κ := κ) clients L).program
        (initVM (ε := ε) (κ := κ) clients L).ip
        = some ⟨.jump_if, some (.list (.expr e :: .int ((fIns.length : Int) + 2) :: []))⟩ := by
      rw [hLdef]
      rfl
    have hstep1 : step env (initVM clients L) =
        .ok { initVM (ε := ε) (κ := κ) clients L with
                ip := (initVM (ε := ε) (κ := κ) clients L).ip + 1 } := by
      refine step_jump_if_false env _ e _ [] rfl hfetch0 hfalse ?_
      show (0 : Int) + 1 < ((L.length : Nat) : Int)
      omega
    have h1 := stepsTrace_one env _ _ hstep1
    have hbF := stepsTrace_straight env fIns.length
      { initVM (ε := ε) (κ := κ) clients L with
          ip := (initVM (ε := ε) (κ := κ) clients L).ip + 1 }
      rfl
      (by show (0 : Int) ≤ (0 : Int) + 1; omega)
      (by show (0 : Int) + 1 + (fIns.length : Int) < ((L.length : Nat) : Int)
          omega)
      (by
        intro k hk
        obtain ⟨i, hi⟩ : ∃ i, fIns.get? k = some i := ⟨fIns.get ⟨k, hk⟩, List.get?_eq_get hk⟩
        refine ⟨i, ?_, hadvF i (List.get?_mem hi)⟩
        show pyGet L ((0 : Int) + 1 + (k : Int)) = some i
        rw [show (0 : Int) + 1 + (k : Int) = (1 : Int) + (k : Int) from by ring]
        rw [hLdef, pyGet_if_layout_false _ _ _ fIns tIns k hk, hi])
    have hfetchJ : pyGet L ((0 : Int) + 1 + (fIns.length : Int)) =
        some ⟨.jump, some (.int ((tIns.length : Int) + 1))⟩ := by
      rw [show (0 : Int) + 1 + (fIns.length : Int) = (fIns.length : Int) + 1 from by ring]
      rw [hLdef]
      exact pyGet_if_layout_jump _ _ _ fIns tIns
    have hstepJ : step env
        { initVM (ε := ε) (κ := κ) clients L with
            ip := (initVM (ε := ε) (κ := κ) clients L).ip + 1 + (fIns.length : Int) } =
        .ok { initVM (ε := ε) (κ := κ) clients L with
            ip := (initVM (ε := ε) (κ := κ) clients L).ip + 1 + (fIns.length : Int)
                  + ((tIns.length : Int) + 1) } := by
      refine step_jump env _ ((tIns.length : Int) + 1) rfl hfetchJ ?_
      show (0 : Int) + 1 + (fIns.length : Int) + ((tIns.length : Int) + 1)
          < ((L.length : Nat) : Int)
      omega
    have h3 := stepsTrace_one env _ _ hstepJ
    rw [stepsTrace_add env (1 + fIns.length) 1, stepsTrace_add env 1 fIns.length, h1]
    simp only [exceptOkBind, pure_bind]
    rw [hbF]
    simp only [exceptOkBind, pure_bind]
    rw [h3]
    simp only [exceptOkBind, pure_bind]
    refine exceptPureEqOk _ _ ?_
    refine congrArg₂ Prod.mk ?_ ?_
    · refine congrArg₂ List.cons rfl ?_
      refine congrArg₂ (fun x y : List Int => x ++ y) ?_ ?_
      · apply List.map_congr_left
        intro a ha
        show (0 : Int) + 1 + (a : Int) = (1 : Int) + (a : Int)
        ring
      · refine congrArg (fun x : Int => [x]) ?_
        show (0 : Int) + 1 + (fIns.length : Int) = (fIns.length : Int) + 1
        ring
    · show ({ initVM (ε := ε) (κ := κ) clients L with
          ip := (0 : Int) + 1 + (fIns.length : Int) + ((tIns.length : Int) + 1) } : VMState ε κ)
        = { initVM (ε := ε) (κ := κ) clients L with
          ip := (fIns.length : Int) + (tIns.length : Int) + 2 }
      congr 1
      ring

/-- C2 witness: the compiled `if` with one-instruction branches
(`log` commands).  With a true condition 2 steps execute the `jump_if` and
the true-branch instruction only, ending at the join point 4; with a false
condition 3 steps execute the `jump_if`, the false-branch instruction and
the internal `jump`, ending at the same join point. -/
theorem c2_witness :
    stepsTrace oracleEnv 2 (initVM ([] : List Unit)
      [⟨.jump_if, some (.list [.expr true, .int 3])⟩,
       ⟨.log_literal, some (.list [.tok (.string "F")])⟩,
       ⟨.jump, some (.int 2)⟩,
       ⟨.log_literal, some (.list [.tok (.string "T")])⟩,
       ⟨.nop, none⟩]) =
      .ok ([0, 3],
        ⟨[], [⟨.jump_if, some (.list [.expr true, .int 3])⟩,
              ⟨.log_literal, some (.list [.tok (.string "F")])⟩,
              ⟨.jump, some (.int 2)⟩,
              ⟨.log_literal, some (.list [.tok (.string "T")])⟩,
              ⟨.nop, none⟩], true, false, 4, []⟩) ∧
    stepsTrace oracleEnv 3 (initVM ([] : List Unit)
      [⟨.jump_if, some (.list [.expr false, .int 3])⟩,
       ⟨.log_literal, some (.list [.tok (.string "F")])⟩,
       ⟨.jump, some (.int 2)⟩,
       ⟨.log_literal, some (.list [.tok (.string "T")])⟩,
       ⟨.nop, none⟩]) =
      .ok ([0, 1, 2],
        ⟨[], [⟨.jump_if, some (.list [.expr false, .int 3])⟩,
              ⟨.log_literal, some (.list [.tok (.string "F")])⟩,
              ⟨.jump, some (.int 2)⟩,
              ⟨.log_literal, some (.list [.tok (.string "T")])⟩,
              ⟨.nop, none⟩], true, false, 4, []⟩) := by
  constructor
  · have h := (c2_if_lowering_executes_branch oracleEnv ([] : List Unit) true
      [Stmt.commandStmt ⟨⟨true, false, []⟩, .log, [.logKind .literal, .tok (.string "T")]⟩]
      [Stmt.commandStmt ⟨⟨true, false, []⟩, .log, [.logKind .literal, .tok (.string "F")]⟩]
      [⟨.log_literal, some (.list [.tok (.string "F")])⟩]
      [⟨.log_literal, some (.list [.tok (.string "T")])⟩]
      [⟨.jump_if, some (.list [.expr true, .int 3])⟩,
       ⟨.log_literal, some (.list [.tok (.string "F")])⟩,
       ⟨.jump, some (.int 2)⟩,
       ⟨.log_literal, some (.list [.tok (.string "T")])⟩,
       ⟨.nop, none⟩]
      rfl rfl rfl).2.1 rfl ?_
    · exact h
    · intro i hi
      have hone : i = (⟨.log_literal, some (.list [.tok (.string "T")])⟩ : Instruction Bool) := by
        simpa using hi
      rw [hone]
      exact advOne_log_literal oracleEnv [.tok (.string "T")] ["T"] rfl
  · have h := (c2_if_lowering_executes_branch oracleEnv ([] : List Unit) false
      [Stmt.commandStmt ⟨⟨true, false, []⟩, .log, [.logKind .literal, .tok (.string "T")]⟩]
      [Stmt.commandStmt ⟨⟨true, false, []⟩, .log, [.logKind .literal, .tok (.string "F")]⟩]
      [⟨.log_literal, some (.list [.tok (.string "F")])⟩]
      [⟨.log_literal, some (.list [.tok (.string "T")])⟩]
      [⟨.jump_if, some (.list [.expr false, .int 3])⟩,
       ⟨.log_literal, some (.list [.tok (.string "F")])⟩,
       ⟨.jump, some (.int 2)⟩,
       ⟨.log_literal, some (.list [.tok (.string "T")])⟩,
       ⟨.nop, none⟩]
      rfl rfl rfl).2.2 rfl ?_
    · exact h
    · intro i hi
      have hone : i = (⟨.log_literal, some (.list [.tok (.string "F")])⟩ : Instruction Bool) := by
        simpa using hi
      rw [hone]
      exact advOne_log_literal oracleEnv [.tok (.string "F")] ["F"] rfl
